import Mathlib

/-!
Verification of the task-manager core: a shallow embedding of
`src/types.ts`, `src/hooks/useLocalStorage.ts` (the undoable history store)
and the state handlers of `src/App.tsx`, together with theorems settling
the specification claims about ordering invariants, cascade deletion,
undo/redo history, reordering, and load-time/import normalization.

JavaScript `Record<string, _>` objects are modelled as ordered association
lists (JS objects preserve key insertion order), so plain structural
equality of the model corresponds to `JSON.stringify` equality of the
original values, while key-order-insensitive comparison is modelled
separately (`deepEqAppState`).
-/

namespace TaskManager

/-- `TaskStatus` from src/types.ts. -/
inductive TaskStatus
  | toDo
  | inProgress
  | done
  deriving DecidableEq

/-- `TaskPriority` from src/types.ts. -/
inductive TaskPriority
  | low
  | medium
  | high
  deriving DecidableEq

/-- `ProjectRole` from src/types.ts. -/
inductive ProjectRole
  | owner
  | collaborator
  | viewer
  deriving DecidableEq

/-- `Member` from src/types.ts. -/
structure Member where
  id : String
  name : String
  role : ProjectRole
  avatarUrl : String
  deriving DecidableEq

/-- `Goal` from src/types.ts. -/
structure Goal where
  id : String
  title : String
  targetValue : Int
  currentValue : Int
  unit : String
  deriving DecidableEq

/-- `Link` from src/types.ts. -/
structure Link where
  id : String
  title : String
  url : String
  deriving DecidableEq

/-- `Comment` from src/types.ts. -/
structure Comment where
  id : String
  projectId : String
  authorName : String
  authorAvatarUrl : String
  content : String
  createdAt : String
  deriving DecidableEq

/-- `ActivityLog` from src/types.ts. -/
structure ActivityLog where
  id : String
  timestamp : String
  author : String
  action : String
  deriving DecidableEq

/-- `Task` from src/types.ts.  `order` is a JS number holding an integer. -/
structure Task where
  id : String
  projectId : String
  parentId : Option String
  title : String
  description : String
  status : TaskStatus
  priority : TaskPriority
  startDate : Option String
  dueDate : Option String
  tags : List String
  isFocused : Bool
  createdAt : String
  order : Int
  deriving DecidableEq

instance : Inhabited Task :=
  ⟨⟨"", "", none, "", "", .toDo, .medium, none, none, [], false, "", 0⟩⟩

/-- `Project` from src/types.ts. -/
structure Project where
  id : String
  name : String
  description : String
  createdAt : String
  tags : List String
  order : Int
  priority : TaskPriority
  isArchived : Bool
  color : String
  members : List Member
  goals : List Goal
  links : List Link
  deriving DecidableEq

/-- `AppState` from src/types.ts; the two `Record<string, _>` maps are
ordered association lists (JS object key order). -/
structure AppState where
  projects : List Project
  tasks : List Task
  comments : List (String × List Comment)
  activityLog : List (String × List ActivityLog)
  deriving DecidableEq

/-- Key lookup in a JS object modelled as an ordered association list
(`obj[key]`, `undefined` becomes `none`). -/
def recGet {α : Type} (m : List (String × α)) (k : String) : Option α :=
  (m.find? (fun e => e.1 == k)).map (fun e => e.2)

/-- Key update `{ ...obj, [key]: v }`: an existing key keeps its position,
a new key is appended at the end (JS object key-order semantics). -/
def recSet {α : Type} (m : List (String × α)) (k : String) (v : α) :
    List (String × α) :=
  if m.any (fun e => e.1 == k) then
    m.map (fun e => if e.1 == k then (k, v) else e)
  else
    m ++ [(k, v)]

/-! ## The undoable history store (`useUndoableState` in src/hooks/useLocalStorage.ts) -/

/-- The state of `useUndoableState`: the `history` array of snapshots and
the `currentIndex` cursor. -/
structure UndoHistory (α : Type) where
  history : List α
  currentIndex : Nat
  deriving DecidableEq

/-- `state = history[currentIndex]`. -/
def UndoHistory.current {α : Type} [Inhabited α] (h : UndoHistory α) : α :=
  h.history.getD h.currentIndex default

/-- `setState` from `useUndoableState`, with the resolved candidate state
`v` and the JSON-serialization equality check passed in as `beq`
(the source compares `JSON.stringify(resolvedState) === JSON.stringify(state)`).
On acceptance the history is truncated at the cursor, the candidate is
appended, and if the length exceeds 50 the oldest snapshot is shifted off. -/
def UndoHistory.setState {α : Type} [Inhabited α] (beq : α → α → Bool)
    (v : α) (h : UndoHistory α) : UndoHistory α :=
  if beq v h.current then h
  else
    let newHistory := h.history.take (h.currentIndex + 1) ++ [v]
    if 50 < newHistory.length then
      ⟨newHistory.drop 1, newHistory.length - 2⟩
    else
      ⟨newHistory, newHistory.length - 1⟩

/-- `undo`: decrement the cursor when `currentIndex > 0`. -/
def UndoHistory.undo {α : Type} (h : UndoHistory α) : UndoHistory α :=
  if 0 < h.currentIndex then ⟨h.history, h.currentIndex - 1⟩ else h

/-- `redo`: increment the cursor when `currentIndex < history.length - 1`. -/
def UndoHistory.redo {α : Type} (h : UndoHistory α) : UndoHistory α :=
  if h.currentIndex + 1 < h.history.length then
    ⟨h.history, h.currentIndex + 1⟩
  else h

/-- `resetState`: replace the whole history by a single snapshot. -/
def UndoHistory.resetState {α : Type} (v : α) : UndoHistory α := ⟨[v], 0⟩

/-- `canUndo = currentIndex > 0`. -/
def UndoHistory.canUndo {α : Type} (h : UndoHistory α) : Bool :=
  decide (0 < h.currentIndex)

/-- `canRedo = currentIndex < history.length - 1`. -/
def UndoHistory.canRedo {α : Type} (h : UndoHistory α) : Bool :=
  decide (h.currentIndex + 1 < h.history.length)

/-- `JSON.stringify(a) === JSON.stringify(b)` on `AppState`: with maps as
ordered association lists and record fields serialized in a fixed order,
stringify equality is exactly structural equality of the model. -/
def jsonEqAppState (a b : AppState) : Bool := decide (a = b)

/-- Key-order-insensitive deep-value equality of two JS objects modelled
as association lists: the same keys map to equal values. -/
def mapDeepEq {α : Type} [DecidableEq α] (a b : List (String × α)) : Bool :=
  (a.map (fun e => e.1) ++ b.map (fun e => e.1)).all
    (fun k => decide (recGet a k = recGet b k))

/-- Full structural/value comparison of two `AppState`s in which the order
of object keys of `comments` and `activityLog` does not matter. -/
def deepEqAppState (a b : AppState) : Bool :=
  decide (a.projects = b.projects) && decide (a.tasks = b.tasks) &&
    mapDeepEq a.comments b.comments && mapDeepEq a.activityLog b.activityLog

instance : Inhabited AppState := ⟨⟨[], [], [], []⟩⟩

lemma deepEqAppState_refl (s : AppState) : deepEqAppState s s = true := by
  simp [deepEqAppState, mapDeepEq, List.all_eq_true]


lemma current_mk {α : Type} [Inhabited α] (L : List α) (i : Nat) :
    (UndoHistory.mk L i).current = L.getD i default := rfl

lemma setState_rejected {α : Type} [Inhabited α] (beq : α → α → Bool)
    (v : α) (h : UndoHistory α) (hv : beq v h.current = true) :
    h.setState beq v = h := by
  unfold UndoHistory.setState
  rw [if_pos hv]

lemma setState_accepted_small {α : Type} [Inhabited α] (beq : α → α → Bool)
    (v : α) (L : List α) (i : Nat)
    (hv : beq v (UndoHistory.mk L i).current = false)
    (hidx : i < L.length) (hsmall : i + 2 ≤ 50) :
    (UndoHistory.mk L i).setState beq v = ⟨L.take (i + 1) ++ [v], i + 1⟩ := by
  have hl : (L.take (i + 1) ++ [v]).length = i + 2 := by
    simp [List.length_take]
    omega
  unfold UndoHistory.setState
  rw [if_neg (by rw [hv]; simp)]
  simp only [hl]
  rw [if_neg (by omega : ¬ 50 < i + 2),
    (by omega : i + 2 - 1 = i + 1)]

lemma setState_accepted_full {α : Type} [Inhabited α] (beq : α → α → Bool)
    (v : α) (L : List α) (i : Nat)
    (hv : beq v (UndoHistory.mk L i).current = false)
    (h50 : L.length = 50) (h49 : i = 49) :
    (UndoHistory.mk L i).setState beq v = ⟨L.drop 1 ++ [v], 49⟩ := by
  subst h49
  have htk : L.take (49 + 1) = L := by
    have h5 : (49 : Nat) + 1 = L.length := by omega
    rw [h5, List.take_length]
  have hl : (L.take (49 + 1) ++ [v]).length = 51 := by
    rw [htk]
    simp [h50]
  unfold UndoHistory.setState
  rw [if_neg (by rw [hv]; simp)]
  simp only [hl]
  rw [if_pos (by omega : (50 : Nat) < 51), htk,
    List.drop_append_of_le_length (by omega)]

lemma undo_mk {α : Type} (L : List α) (i : Nat) (hi : 0 < i) :
    (UndoHistory.mk L i).undo = ⟨L, i - 1⟩ := by
  unfold UndoHistory.undo
  rw [if_pos hi]

lemma redo_mk {α : Type} (L : List α) (i : Nat) (hi : i + 1 < L.length) :
    (UndoHistory.mk L i).redo = ⟨L, i + 1⟩ := by
  unfold UndoHistory.redo
  rw [if_pos hi]

lemma getD_take_append {α : Type} (L l' : List α) (m j : Nat) (d : α)
    (h1 : j < m) (h2 : j < L.length) :
    (L.take m ++ l').getD j d = L.getD j d := by
  rw [List.getD_eq_getElem?_getD,
    List.getElem?_append_left (by simp [List.length_take]; omega),
    List.getElem?_take, if_pos h1, ← List.getD_eq_getElem?_getD]

lemma getD_take_append_last {α : Type} (L : List α) (v : α) (m : Nat) (d : α)
    (hm : m ≤ L.length) :
    (L.take m ++ [v]).getD m d = v := by
  rw [List.getD_eq_getElem?_getD,
    List.getElem?_append_right (by simp [List.length_take])]
  simp [List.length_take, Nat.min_eq_left hm]

/-- **C3.** For the undoable history store: undo immediately after an
accepted `setState` restores the immediately prior snapshot; redo
immediately after an undo restores the snapshot that was undone; and an
accepted `setState` performed after an undo truncates the history to the
entries up to the cursor and appends the new state, making redo
unavailable. -/
theorem undoable_history_c3 {α : Type} [Inhabited α] (beq : α → α → Bool)
    (h : UndoHistory α)
    (hidx : h.currentIndex < h.history.length) (hcap : h.history.length ≤ 50) :
    (∀ v : α, beq v h.current = false →
        ((h.setState beq v).undo).current = h.current) ∧
    (h.canUndo = true → ((h.undo).redo).current = h.current) ∧
    (∀ v : α, h.canUndo = true → beq v (h.undo).current = false →
        ((h.undo).setState beq v).history =
            h.history.take h.currentIndex ++ [v] ∧
        ((h.undo).setState beq v).canRedo = false) := by
  obtain ⟨L, i⟩ := h
  simp only at hidx hcap
  refine ⟨?_, ?_, ?_⟩
  · intro v hv
    by_cases hbig : i + 2 ≤ 50
    · rw [setState_accepted_small beq v L i hv hidx hbig,
        undo_mk _ _ (by omega), current_mk, current_mk]
      simp only [Nat.add_sub_cancel]
      exact getD_take_append L [v] (i + 1) i default (by omega) hidx
    · have h49 : i = 49 := by omega
      have h50 : L.length = 50 := by omega
      rw [setState_accepted_full beq v L i hv h50 h49,
        undo_mk _ _ (by omega), current_mk, current_mk, h49]
      rw [(by omega : (49 : Nat) - 1 = 48), List.getD_eq_getElem?_getD,
        List.getElem?_append_left (by simp [h50]),
        List.getElem?_drop, (by omega : 1 + 48 = 49),
        ← List.getD_eq_getElem?_getD]
  · intro hcu
    have hi : 0 < i := by simpa [UndoHistory.canUndo] using hcu
    rw [undo_mk _ _ hi, redo_mk _ _ (by omega), current_mk, current_mk]
    have hii : i - 1 + 1 = i := by omega
    rw [hii]
  · intro v hcu hv
    have hi : 0 < i := by simpa [UndoHistory.canUndo] using hcu
    rw [undo_mk _ _ hi] at hv ⊢
    rw [setState_accepted_small beq v L (i - 1) hv (by omega) (by omega)]
    have hii : i - 1 + 1 = i := by omega
    constructor
    · rw [hii]
    · simp only [UndoHistory.canRedo, List.length_append, List.length_take,
        List.length_singleton, decide_eq_false_iff_not]
      omega

/-- Witness for C3 at a concrete input: from history `[10, 20, 30]` with
the cursor on `30`, undo and then an accepted `setState 40` yields history
`[10, 20, 40]` with redo unavailable. -/
theorem undoable_history_c3_witness :
    (((UndoHistory.mk [10, 20, 30] 2).undo).setState
        (fun a b : Nat => decide (a = b)) 40).history = [10, 20, 40] ∧
    (((UndoHistory.mk [10, 20, 30] 2).undo).setState
        (fun a b : Nat => decide (a = b)) 40).canRedo = false := by
  have happ := (undoable_history_c3 (fun a b : Nat => decide (a = b))
      (UndoHistory.mk [10, 20, 30] 2) (by decide) (by decide)).2.2 40
      (by decide) (by decide)
  exact ⟨by rw [happ.1]; decide, happ.2⟩

/-- **C5.** The history never exceeds 50 snapshots and the cursor stays in
range; an accepted `setState` leaves the observable current state equal to
the pushed value; and pushing onto a full history of 50 with the cursor on
the last entry drops the oldest snapshot while the cursor stays on the
newly appended (most recent) snapshot. -/
theorem history_bound_c5 {α : Type} [Inhabited α] (beq : α → α → Bool)
    (h : UndoHistory α)
    (hidx : h.currentIndex < h.history.length) (hcap : h.history.length ≤ 50) :
    (∀ v : α, (h.setState beq v).history.length ≤ 50 ∧
        (h.setState beq v).currentIndex < (h.setState beq v).history.length) ∧
    (∀ v : α, beq v h.current = false → (h.setState beq v).current = v) ∧
    (∀ v : α, beq v h.current = false → h.history.length = 50 →
        h.currentIndex = 49 →
        (h.setState beq v).history = h.history.drop 1 ++ [v] ∧
        (h.setState beq v).currentIndex = 49) := by
  obtain ⟨L, i⟩ := h
  simp only at hidx hcap
  refine ⟨?_, ?_, ?_⟩
  · intro v
    by_cases hv : beq v (UndoHistory.mk L i).current = true
    · rw [setState_rejected beq v _ hv]
      exact ⟨hcap, hidx⟩
    · rw [Bool.not_eq_true] at hv
      by_cases hbig : i + 2 ≤ 50
      · rw [setState_accepted_small beq v L i hv hidx hbig]
        constructor
        · simp only [List.length_append, List.length_take,
            List.length_singleton]
          omega
        · simp only [List.length_append, List.length_take,
            List.length_singleton]
          omega
      · have h49 : i = 49 := by omega
        have h50 : L.length = 50 := by omega
        rw [setState_accepted_full beq v L i hv h50 h49]
        constructor
        · simp [h50]
        · simp [h50]
  · intro v hv
    by_cases hbig : i + 2 ≤ 50
    · rw [setState_accepted_small beq v L i hv hidx hbig, current_mk]
      exact getD_take_append_last L v (i + 1) default (by omega)
    · have h49 : i = 49 := by omega
      have h50 : L.length = 50 := by omega
      rw [setState_accepted_full beq v L i hv h50 h49, current_mk]
      rw [List.getD_eq_getElem?_getD,
        List.getElem?_append_right (by simp [h50])]
      simp [h50]
  · intro v hv h50 h49
    rw [setState_accepted_full beq v L i hv h50 h49]
    exact ⟨rfl, rfl⟩

/-- Witness for C5 at a concrete input: pushing a 51st snapshot onto a
full 50-entry history drops the oldest snapshot and keeps the cursor on
the newly appended state. -/
theorem history_bound_c5_witness :
    ((UndoHistory.mk (List.range 50) 49).setState
        (fun a b : Nat => decide (a = b)) 77).history =
      (List.range 50).drop 1 ++ [77] ∧
    ((UndoHistory.mk (List.range 50) 49).setState
        (fun a b : Nat => decide (a = b)) 77).currentIndex = 49 :=
  (history_bound_c5 (fun a b : Nat => decide (a = b))
      (UndoHistory.mk (List.range 50) 49) (by decide) (by decide)).2.2 77
    (by decide) (by decide) (by decide)

/-- Concrete states for the C4 counterexample: identical finite maps whose
object keys are serialized in different orders. -/
def c4StateA : AppState :=
  { projects := [], tasks := [],
    comments := [("a", []), ("b", [])], activityLog := [] }

/-- Companion state to `c4StateA` with the comment keys in the other order. -/
def c4StateB : AppState :=
  { projects := [], tasks := [],
    comments := [("b", []), ("a", [])], activityLog := [] }

/-- **C4 (counterexample).** A candidate state that is deep-value equal to
the current state but serializes its object keys in a different order is
not detected as equal: `setState` appends a new snapshot (history length
grows from 1 to 2), contradicting the claim that it is a no-op. -/
theorem setState_deep_equal_c4_counterexample :
    deepEqAppState c4StateB c4StateA = true ∧
    ((UndoHistory.resetState c4StateA).setState jsonEqAppState
        c4StateB).history.length = 2 := by
  constructor
  · decide
  · decide

/-- **C4 (amended).** `setState` is a no-op — history and cursor unchanged
— exactly when the candidate equals the current state under the
JSON-serialization (structural, key-order-sensitive) comparison the code
performs; serialization equality implies deep-value equality, but the
converse key-order-insensitive comparison is not what the code checks. -/
theorem setState_deep_equal_c4_amended (h : UndoHistory AppState)
    (v : AppState) (hser : jsonEqAppState v h.current = true) :
    h.setState jsonEqAppState v = h ∧ deepEqAppState v h.current = true := by
  refine ⟨setState_rejected _ _ _ hser, ?_⟩
  have hv : v = h.current := by simpa [jsonEqAppState] using hser
  rw [hv]
  exact deepEqAppState_refl _

/-- Witness for the amended C4: a structurally identical candidate is a
no-op on a concrete history. -/
theorem setState_deep_equal_c4_amended_witness :
    (UndoHistory.resetState c4StateA).setState jsonEqAppState c4StateA =
        UndoHistory.resetState c4StateA ∧
    deepEqAppState c4StateA (UndoHistory.resetState c4StateA).current = true :=
  setState_deep_equal_c4_amended (UndoHistory.resetState c4StateA) c4StateA
    (by decide)

/-! ## Migration / normalization (App.tsx `useEffect` migration and `handleImportData`)

Raw persisted or imported values are untyped JSON, so the fields touched by
normalization are modelled as JavaScript property slots that can be
missing, `undefined`, `null`, or present. -/

/-- A JavaScript property slot of an untyped object: the key may be absent,
present with value `undefined`, present `null`, or present with a value. -/
inductive JsField (α : Type)
  | missing
  | undef
  | nullv
  | val (a : α)
  deriving DecidableEq

/-- JS `x || d` where any present value of `x` is truthy (enumeration
values are non-empty strings; arrays and objects are always truthy). -/
def jsOrTruthy {α : Type} (f : JsField α) (d : α) : JsField α :=
  match f with
  | .val a => .val a
  | _ => .val d

/-- JS `b || false` on a boolean slot: `true` is the only truthy boolean. -/
def jsOrBool (f : JsField Bool) : JsField Bool :=
  match f with
  | .val true => .val true
  | _ => .val false

/-- JS `s || d` on a string slot: the empty string is falsy, and the
fallback `d` is itself a slot (it may be another raw property). -/
def jsOrStr (f : JsField String) (d : JsField String) : JsField String :=
  match f with
  | .val s => if s = "" then d else .val s
  | _ => d

/-- Truthiness of an object/array slot (`!x` in the migration check):
present objects and arrays are always truthy. -/
def jsTruthyObj {α : Type} (f : JsField α) : Bool :=
  match f with
  | .val _ => true
  | _ => false

/-- JS `x === undefined`: property access on a missing key also yields
`undefined`. -/
def jsIsUndefined {α : Type} (f : JsField α) : Bool :=
  match f with
  | .missing => true
  | .undef => true
  | _ => false

/-- A raw (pre-migration) `Project`: the six fields the normalizers touch
are untyped slots; the rest is carried through the object spread `...p`
unchanged. -/
structure RawProject where
  id : String
  name : String
  description : String
  createdAt : String
  tags : List String
  order : Int
  priority : JsField TaskPriority
  isArchived : JsField Bool
  color : JsField String
  members : JsField (List Member)
  goals : JsField (List Goal)
  links : JsField (List Link)
  deriving DecidableEq

/-- A raw (pre-migration) `Task`: `startDate` and `createdAt` are untyped
slots (the normalizers read both); the rest is carried through `...t`. -/
structure RawTask where
  id : String
  projectId : String
  parentId : Option String
  title : String
  description : String
  status : TaskStatus
  priority : TaskPriority
  startDate : JsField String
  dueDate : Option String
  tags : List String
  isFocused : Bool
  createdAt : JsField String
  order : Int
  deriving DecidableEq

/-- A raw persisted or imported `AppState` (`projects` and `tasks` are
arrays in every state the app reads back, per the `useLocalStorage`
default and the import shape check). -/
structure RawAppState where
  projects : List RawProject
  tasks : List RawTask
  comments : JsField (List (String × List Comment))
  activityLog : JsField (List (String × List ActivityLog))
  deriving DecidableEq

/-- The per-project defaulting of the load-time migration in App.tsx:
`{ ...p, priority: p.priority || Medium, isArchived: p.isArchived || false,
color: p.color || '#334155', members: p.members || [], goals: p.goals || [],
links: p.links || [] }`. -/
def migrateProject (p : RawProject) : RawProject :=
  { p with
    priority := jsOrTruthy p.priority TaskPriority.medium,
    isArchived := jsOrBool p.isArchived,
    color := jsOrStr p.color (.val "#334155"),
    members := jsOrTruthy p.members [],
    goals := jsOrTruthy p.goals [],
    links := jsOrTruthy p.links [] }

/-- The per-task defaulting of the load-time migration:
`{ ...t, startDate: t.startDate || t.createdAt }`. -/
def migrateTask (t : RawTask) : RawTask :=
  { t with startDate := jsOrStr t.startDate t.createdAt }

/-- The `migratedState` built by the load-time migration `useEffect`. -/
def migrateNormalize (s : RawAppState) : RawAppState :=
  { projects := s.projects.map migrateProject,
    tasks := s.tasks.map migrateTask,
    comments := jsOrTruthy s.comments [],
    activityLog := jsOrTruthy s.activityLog [] }

/-- The `needsMigration` test of the load-time migration `useEffect`:
`!comments || !activityLog || projects.some(p => p.color === undefined) ||
tasks.some(t => t.startDate === undefined)`. -/
def needsMigration (s : RawAppState) : Bool :=
  !(jsTruthyObj s.comments) || !(jsTruthyObj s.activityLog) ||
    s.projects.any (fun p => jsIsUndefined p.color) ||
    s.tasks.any (fun t => jsIsUndefined t.startDate)

/-- The complete load-time migration transform: the normalized state is
built and installed only when `needsMigration` holds, otherwise the
persisted state is left untouched. -/
def migrate (s : RawAppState) : RawAppState :=
  if needsMigration s then migrateNormalize s else s

/-- The per-project defaulting of `handleImportData` in App.tsx:
`{ priority: Medium, isArchived: false, color: '#334155', members: [],
goals: [], links: [], ...p }` — the spread overrides a default only when
the key is present on `p`, even when its value is `undefined` or `null`. -/
def importField {α : Type} (f : JsField α) (d : α) : JsField α :=
  match f with
  | .missing => .val d
  | x => x

/-- Per-project normalization of `handleImportData`. -/
def importProject (p : RawProject) : RawProject :=
  { p with
    priority := importField p.priority TaskPriority.medium,
    isArchived := importField p.isArchived false,
    color := importField p.color "#334155",
    members := importField p.members [],
    goals := importField p.goals [],
    links := importField p.links [] }

/-- Per-task normalization of `handleImportData`:
`{ ...t, startDate: t.startDate || t.createdAt }`. -/
def importTask (t : RawTask) : RawTask :=
  { t with startDate := jsOrStr t.startDate t.createdAt }

/-- The `migratedData` built by `handleImportData`. -/
def importNormalize (s : RawAppState) : RawAppState :=
  { projects := s.projects.map importProject,
    tasks := s.tasks.map importTask,
    comments := jsOrTruthy s.comments [],
    activityLog := jsOrTruthy s.activityLog [] }

/-- Raw project used by the C8 counterexample: `color` present but null. -/
def c8Project : RawProject :=
  { id := "p1", name := "P", description := "", createdAt := "t0",
    tags := [], order := 0, priority := .missing, isArchived := .missing,
    color := .nullv, members := .missing, goals := .missing,
    links := .missing }

/-- Raw input used by the C8 counterexample. -/
def c8Input : RawAppState :=
  { projects := [c8Project], tasks := [], comments := .missing,
    activityLog := .missing }

/-- **C8 (counterexample).** The load-time migration path and the import
path do not compute the same function: on a project whose `color` key is
present but `null`, migration substitutes the default color (null is
falsy under `||`) while the import spread keeps the null. -/
theorem normalization_c8_counterexample :
    migrateNormalize c8Input ≠ importNormalize c8Input := by
  decide

/-- A raw project on which the two normalization paths agree: each of the
six defaulted keys is either absent or holds a truthy value (for
`isArchived`, any boolean). -/
def AgreeableRawProject (p : RawProject) : Prop :=
  (p.priority = .missing ∨ ∃ x, p.priority = .val x) ∧
  (p.isArchived = .missing ∨ ∃ b, p.isArchived = .val b) ∧
  (p.color = .missing ∨ ∃ c, p.color = .val c ∧ c ≠ "") ∧
  (p.members = .missing ∨ ∃ l, p.members = .val l) ∧
  (p.goals = .missing ∨ ∃ l, p.goals = .val l) ∧
  (p.links = .missing ∨ ∃ l, p.links = .val l)

/-- **C8 (amended).** The task, comments and activity-log normalization of
the two paths coincide, and the project normalization coincides exactly on
projects whose defaulted keys are each absent or truthy (plus a present
boolean for `isArchived`); in general they differ, because migration
replaces any falsy present value (null, undefined, empty string) by the
default while import keeps every present value. -/
theorem normalization_c8_amended (s : RawAppState)
    (hp : ∀ p ∈ s.projects, AgreeableRawProject p) :
    migrateNormalize s = importNormalize s := by
  unfold migrateNormalize importNormalize
  have htask : ∀ t : RawTask, migrateTask t = importTask t := fun t => rfl
  rw [List.map_congr_left (fun t _ => htask t)]
  have hproj : ∀ p ∈ s.projects, migrateProject p = importProject p := by
    intro p hpmem
    obtain ⟨h1, h2, h3, h4, h5, h6⟩ := hp p hpmem
    unfold migrateProject importProject
    congr 1
    · rcases h1 with h | ⟨x, h⟩ <;> rw [h] <;> rfl
    · rcases h2 with h | ⟨b, h⟩
      · rw [h]; rfl
      · rw [h]; cases b <;> rfl
    · rcases h3 with h | ⟨c, h, hc⟩
      · rw [h]; rfl
      · rw [h]; simp [jsOrStr, importField, hc]
    · rcases h4 with h | ⟨l, h⟩ <;> rw [h] <;> rfl
    · rcases h5 with h | ⟨l, h⟩ <;> rw [h] <;> rfl
    · rcases h6 with h | ⟨l, h⟩ <;> rw [h] <;> rfl
  rw [List.map_congr_left hproj]

/-- Concrete agreeable raw project for the C8 witness. -/
def c8OkProject : RawProject :=
  { id := "p2", name := "Q", description := "", createdAt := "t1",
    tags := [], order := 1, priority := .val .high,
    isArchived := .val false, color := .missing,
    members := .val [], goals := .missing, links := .missing }

/-- Concrete agreeable raw state for the C8 witness. -/
def c8OkInput : RawAppState :=
  { projects := [c8OkProject], tasks := [], comments := .val [],
    activityLog := .missing }

/-- Witness for the amended C8 at a concrete input. -/
theorem normalization_c8_amended_witness :
    migrateNormalize c8OkInput = importNormalize c8OkInput :=
  normalization_c8_amended c8OkInput (by
    intro p hp
    simp only [c8OkInput, List.mem_singleton] at hp
    subst hp
    refine ⟨Or.inr ⟨.high, rfl⟩, Or.inr ⟨false, rfl⟩, Or.inl rfl,
      Or.inr ⟨[], rfl⟩, Or.inl rfl, Or.inl rfl⟩)

/-- A raw state already in the current schema of src/types.ts: both maps
present, every project field present with a typed value, every task with a
present `createdAt` string and a `startDate` that is a string or null
(`string | null` in the schema). -/
def CurrentSchema (s : RawAppState) : Prop :=
  (∃ m, s.comments = .val m) ∧ (∃ m, s.activityLog = .val m) ∧
  (∀ p ∈ s.projects,
    (∃ x, p.priority = .val x) ∧ (∃ b, p.isArchived = .val b) ∧
    (∃ c, p.color = .val c) ∧ (∃ l, p.members = .val l) ∧
    (∃ l, p.goals = .val l) ∧ (∃ l, p.links = .val l)) ∧
  (∀ t ∈ s.tasks,
    (t.startDate = .nullv ∨ ∃ d, t.startDate = .val d) ∧
    (∃ c, t.createdAt = .val c))

lemma jsOrTruthy_idem {α : Type} (f : JsField α) (d : α) :
    jsOrTruthy (jsOrTruthy f d) d = jsOrTruthy f d := by
  cases f <;> rfl

lemma jsOrBool_idem (f : JsField Bool) :
    jsOrBool (jsOrBool f) = jsOrBool f := by
  cases f with
  | val b => cases b <;> rfl
  | missing => rfl
  | undef => rfl
  | nullv => rfl

lemma jsOrStr_idem (f d : JsField String) :
    jsOrStr (jsOrStr f d) d = jsOrStr f d := by
  cases f with
  | val s =>
      by_cases hs : s = ""
      · simp only [jsOrStr, hs, if_pos rfl]
        cases d with
        | val t =>
            by_cases ht : t = "" <;> simp [jsOrStr, ht]
        | missing => rfl
        | undef => rfl
        | nullv => rfl
      · simp [jsOrStr, hs]
  | missing =>
      cases d with
      | val t => by_cases ht : t = "" <;> simp [jsOrStr, ht]
      | missing => rfl
      | undef => rfl
      | nullv => rfl
  | undef =>
      cases d with
      | val t => by_cases ht : t = "" <;> simp [jsOrStr, ht]
      | missing => rfl
      | undef => rfl
      | nullv => rfl
  | nullv =>
      cases d with
      | val t => by_cases ht : t = "" <;> simp [jsOrStr, ht]
      | missing => rfl
      | undef => rfl
      | nullv => rfl

lemma migrateProject_idem (p : RawProject) :
    migrateProject (migrateProject p) = migrateProject p := by
  unfold migrateProject
  congr 1
  · exact jsOrTruthy_idem _ _
  · exact jsOrBool_idem _
  · exact jsOrStr_idem p.color (JsField.val "#334155")
  · exact jsOrTruthy_idem _ _
  · exact jsOrTruthy_idem _ _
  · exact jsOrTruthy_idem _ _

lemma migrateTask_idem (t : RawTask) :
    migrateTask (migrateTask t) = migrateTask t := by
  unfold migrateTask
  congr 1
  exact jsOrStr_idem t.startDate t.createdAt

lemma migrateNormalize_idem (s : RawAppState) :
    migrateNormalize (migrateNormalize s) = migrateNormalize s := by
  unfold migrateNormalize
  congr 1
  · rw [List.map_map]
    exact List.map_congr_left (fun p _ => migrateProject_idem p)
  · rw [List.map_map]
    exact List.map_congr_left (fun t _ => migrateTask_idem t)
  · exact jsOrTruthy_idem _ _
  · exact jsOrTruthy_idem _ _

/-- **C9.** The load-time migration transform is the identity on data
already in the current schema — including tasks whose `startDate` is
present but null, since only `undefined` triggers migration — and applying
the transform twice to any raw input equals applying it once. -/
theorem migration_idempotent_c9 :
    (∀ s : RawAppState, CurrentSchema s → migrate s = s) ∧
    (∀ s : RawAppState, migrate (migrate s) = migrate s) := by
  constructor
  · intro s hcs
    obtain ⟨⟨mc, hc⟩, ⟨ml, hl⟩, hp, ht⟩ := hcs
    have hneeds : needsMigration s = false := by
      unfold needsMigration
      simp only [Bool.or_eq_false_iff, Bool.not_eq_true']
      refine ⟨⟨⟨?_, ?_⟩, ?_⟩, ?_⟩
      · rw [hc]; rfl
      · rw [hl]; rfl
      · rw [List.any_eq_false]
        intro p hpm
        obtain ⟨_, _, ⟨c, hcol⟩, _⟩ := hp p hpm
        rw [hcol]
        simp [jsIsUndefined]
      · rw [List.any_eq_false]
        intro t htm
        obtain ⟨hsd, _⟩ := ht t htm
        rcases hsd with h | ⟨d, h⟩ <;> rw [h] <;> simp [jsIsUndefined]
    unfold migrate
    rw [hneeds]
    rfl
  · intro s
    unfold migrate
    by_cases hn : needsMigration s = true
    · rw [if_pos hn]
      by_cases hn2 : needsMigration (migrateNormalize s) = true
      · rw [if_pos hn2]
        exact migrateNormalize_idem s
      · rw [if_neg hn2]
    · rw [if_neg hn, if_neg hn]

/-- Witness for C9 at a concrete input: a current-schema state is left
untouched by the migration transform. -/
theorem migration_idempotent_c9_witness :
    migrate (RawAppState.mk [] [] (.val []) (.val [])) =
      RawAppState.mk [] [] (.val []) (.val []) :=
  migration_idempotent_c9.1 (RawAppState.mk [] [] (.val []) (.val []))
    ⟨⟨[], rfl⟩, ⟨[], rfl⟩, by simp, by simp⟩

/-! ## The state mutation engine (task handlers of src/App.tsx) -/

/-- The fields of `handleSaveTask`'s `taskData` argument
(`Omit<Task, 'id' | 'projectId' | 'parentId' | 'isFocused' | 'createdAt' | 'order'>`). -/
structure TaskFormData where
  title : String
  description : String
  status : TaskStatus
  priority : TaskPriority
  startDate : Option String
  dueDate : Option String
  tags : List String
  deriving DecidableEq

/-- `createActivityLog` from App.tsx: `nowMs` models `Date.now()` and
`nowIso` models `new Date().toISOString()`; the handler's `projectId`
argument is not stored in the entry (it is only the key under which the
entry is filed). -/
def createActivityLogEntry (nowMs : Nat) (nowIso : String)
    (action : String) : ActivityLog :=
  { id := "log_" ++ toString nowMs, timestamp := nowIso, author := "You",
    action := action }

/-- The log-append pattern `{ ...log, [pid]: [...(log[pid] || []), entry] }`
used by every mutating handler (a present empty array is truthy, so
`|| []` is the same as defaulting a missing key). -/
def appendLog (log : List (String × List ActivityLog)) (pid : String)
    (e : ActivityLog) : List (String × List ActivityLog) :=
  recSet log pid ((recGet log pid).getD [] ++ [e])

/-- The sibling group of `(projectId, parentId)`:
`tasks.filter(t => t.projectId === pid && t.parentId === par)`. -/
def taskGroup (pid : String) (par : Option String)
    (ts : List Task) : List Task :=
  ts.filter (fun t => decide (t.projectId = pid ∧ t.parentId = par))

/-- JS `list.sort((a, b) => a.order - b.order)`: a stable sort ascending
by `order`, modelled by insertion sort (stable sorts with the same
comparator agree). -/
def sortByOrder (l : List Task) : List Task :=
  l.insertionSort (fun a b => a.order ≤ b.order)

/-- Helper for `.map((t, index) => ({ ...t, order: index }))`, carrying
the running index. -/
def renumberFrom : Nat → List Task → List Task
  | _, [] => []
  | n, t :: ts => { t with order := (n : Int) } :: renumberFrom (n + 1) ts

/-- `.map((t, index) => ({ ...t, order: index }))`, the renumbering used
by the edit-task move path and by `handleReorder`. -/
def renumber (l : List Task) : List Task := renumberFrom 0 l

/-- The `newTask` object built by the `CREATE_TASK` branch of
`handleSaveTask` (`order` is the max sibling order plus one, computed by
`reduce(..., -1) + 1`). -/
def createdTask (nowMs : Nat) (nowIso : String) (d : TaskFormData)
    (newProjectId : String) (newParentId : Option String)
    (s : AppState) : Task :=
  { id := "task_" ++ toString nowMs, projectId := newProjectId,
    parentId := newParentId, isFocused := false, createdAt := nowIso,
    order := (taskGroup newProjectId newParentId s.tasks).foldl
      (fun mx t => max t.order mx) (-1) + 1,
    title := d.title, description := d.description, status := d.status,
    priority := d.priority, startDate := d.startDate,
    dueDate := d.dueDate, tags := d.tags }

/-- The `CREATE_TASK` branch of `handleSaveTask`. -/
def handleCreateTask (nowMs : Nat) (nowIso : String) (d : TaskFormData)
    (newProjectId : String) (newParentId : Option String)
    (s : AppState) : AppState :=
  { s with
    tasks := s.tasks ++ [createdTask nowMs nowIso d newProjectId newParentId s],
    activityLog := appendLog s.activityLog newProjectId
      (createActivityLogEntry nowMs nowIso
        ("created task \"" ++ d.title ++ "\".")) }

/-- `otherTasks = current.tasks.filter(t => t.id !== originalTask.id)`. -/
def editOtherTasks (orig : Task) (ts : List Task) : List Task :=
  ts.filter (fun t => !(t.id == orig.id))

/-- The densely renumbered old sibling group of the edit-move path
(`oldSiblings` in `handleSaveTask`). -/
def editOldSiblings (orig : Task) (ts : List Task) : List Task :=
  renumber (sortByOrder
    (taskGroup orig.projectId orig.parentId (editOtherTasks orig ts)))

/-- `taskWithData = { ...originalTask, ...taskData }`. -/
def editTaskWithData (orig : Task) (d : TaskFormData) : Task :=
  { orig with
    title := d.title
    description := d.description
    status := d.status
    priority := d.priority
    startDate := d.startDate
    dueDate := d.dueDate
    tags := d.tags }

/-- `taskWithNewOrder`: the moved task re-keyed to the new group and
placed last (`order = newSiblings.length`, computed over `otherTasks`). -/
def editMovedTask (orig : Task) (d : TaskFormData) (newProjectId : String)
    (newParentId : Option String) (ts : List Task) : Task :=
  { editTaskWithData orig d with
    projectId := newProjectId
    parentId := newParentId
    order := ((taskGroup newProjectId newParentId
      (editOtherTasks orig ts)).length : Int) }

/-- `oldSiblingMap.get(t.id) || t`: the map lookup is modelled by `find?`
into the renumbered old siblings (ids are unique in every state the app
builds, so first-match and JS `Map` lookup agree), and a miss keeps `t`. -/
def editLookup (orig : Task) (ts : List Task) (t : Task) : Task :=
  ((editOldSiblings orig ts).find? (fun u => u.id == t.id)).getD t

/-- `otherTasks.map(t => oldSiblingMap.get(t.id) || t)`. -/
def editReplacedOthers (orig : Task) (ts : List Task) : List Task :=
  (editOtherTasks orig ts).map (editLookup orig ts)

/-- `finalTasks` of the edit-move path: the replaced others with the
moved task pushed at the end. -/
def editFinalTasks (orig : Task) (d : TaskFormData) (newProjectId : String)
    (newParentId : Option String) (ts : List Task) : List Task :=
  editReplacedOthers orig ts ++ [editMovedTask orig d newProjectId newParentId ts]

/-- The `EDIT_TASK` branch of `handleSaveTask`, with the modal's task
snapshot passed as `orig`. -/
def handleEditTask (nowMs : Nat) (nowIso : String) (orig : Task)
    (d : TaskFormData) (newProjectId : String) (newParentId : Option String)
    (s : AppState) : AppState :=
  let logEdit := createActivityLogEntry nowMs nowIso
    ("edited task \"" ++ d.title ++ "\".")
  if orig.projectId ≠ newProjectId ∨ orig.parentId ≠ newParentId then
    let log1 :=
      if orig.projectId ≠ newProjectId then
        appendLog s.activityLog newProjectId
          (createActivityLogEntry nowMs nowIso
            ("moved task \"" ++ d.title ++ "\" into this project."))
      else s.activityLog
    { s with
      tasks := editFinalTasks orig d newProjectId newParentId s.tasks,
      activityLog := appendLog log1 orig.projectId logEdit }
  else
    { s with
      tasks := s.tasks.map
        (fun t => if t.id = orig.id then editTaskWithData orig d else t),
      activityLog := appendLog s.activityLog orig.projectId logEdit }

/-- One pass of the descendant-collection loop
(`current.tasks.forEach(task => { if (task.parentId && has(task.parentId))
add(task.id) })`): the visit of one task against the growing set, which
mutates during the pass exactly as the JS `Set` does (app-generated task
ids are non-empty strings, hence truthy; `Set.add` keeps the set
duplicate-free). -/
def closureAdd (acc : List String) (t : Task) : List String :=
  match t.parentId with
  | some p =>
      if acc.contains p then
        (if acc.contains t.id then acc else acc ++ [t.id])
      else acc
  | none => acc

/-- One full `forEach` pass over the tasks, threading the growing set. -/
def closureStep (ts : List Task) (acc : List String) : List String :=
  ts.foldl closureAdd acc

/-- The `while (search)` fixed-point loop of `handleDeleteTask`, with
enough fuel to reach the fixed point (each productive pass adds at least
one task id, so `ts.length + 1` passes always suffice). -/
def closureIter (ts : List Task) : Nat → List String → List String
  | 0, acc => acc
  | n + 1, acc =>
      let next := closureStep ts acc
      if next.length = acc.length then acc else closureIter ts n next

/-- The `tasksToDelete` set of `handleDeleteTask`. -/
def deleteClosure (ts : List Task) (taskId : String) : List String :=
  closureIter ts (ts.length + 1) [taskId]

/-- `handleDeleteTask` from App.tsx. -/
def handleDeleteTask (nowMs : Nat) (nowIso : String) (taskId : String)
    (s : AppState) : AppState :=
  match s.tasks.find? (fun t => t.id == taskId) with
  | none => s
  | some taskToDelete =>
      let tasksToDelete := deleteClosure s.tasks taskId
      { s with
        tasks := s.tasks.filter (fun t => !(tasksToDelete.contains t.id)),
        activityLog := appendLog s.activityLog taskToDelete.projectId
          (createActivityLogEntry nowMs nowIso
            ("deleted task \"" ++ taskToDelete.title ++ "\".")) }

/-- Drop position of `handleReorder` (the source defaults to `'top'`). -/
inductive DropPosition
  | top
  | bottom
  deriving DecidableEq

/-- `handleReorder` from App.tsx, instantiated at `Task` (the source is
generic over `{id, order}`): remove the dragged item, sort the rest by
`order`, insert the dragged item at the target's index (or after it for a
`bottom` drop), then renumber the whole list `0..n-1`.  A missing dragged
or target id returns the list unchanged. -/
def handleReorder (draggedId targetId : String) (list : List Task)
    (position : DropPosition) : List Task :=
  match list.find? (fun p => p.id == draggedId) with
  | none => list
  | some draggedItem =>
      let reorderedList :=
        sortByOrder (list.filter (fun p => !(p.id == draggedId)))
      match reorderedList.findIdx? (fun p => p.id == targetId) with
      | none => list
      | some targetIndex =>
          let targetIndex :=
            if position = DropPosition.bottom then targetIndex + 1
            else targetIndex
          renumber (reorderedList.insertIdx targetIndex draggedItem)

/-- Modelled from the spec: the Dashboard component that wires
`onReorderTasks` to the generic `handleReorder` is not among the provided
sources.  Per spec section 4.2 ("Reorder ... applies to Projects list and
to Task sibling groups"), the operation replaces the dragged task's
sibling group by the reordered, renumbered list and leaves every other
task unchanged. -/
def reorderTaskGroup (pid : String) (par : Option String)
    (draggedId targetId : String) (position : DropPosition)
    (s : AppState) : AppState :=
  { s with
    tasks :=
      s.tasks.filter
          (fun t => !(decide (t.projectId = pid ∧ t.parentId = par))) ++
        handleReorder draggedId targetId (taskGroup pid par s.tasks)
          position }

/-- Dense zero-based ordering: the multiset of `order` values of a
sibling group is exactly `{0, ..., n-1}`. -/
def DenseGroup (l : List Task) : Prop :=
  (l.map Task.order).Perm ((List.range l.length).map Int.ofNat)

instance (l : List Task) : Decidable (DenseGroup l) := by
  unfold DenseGroup
  infer_instance

/-- Every `(projectId, parentId)` sibling group is densely ordered. -/
def AllDense (ts : List Task) : Prop :=
  ∀ pid par, DenseGroup (taskGroup pid par ts)

/-- Task ids are unique — the data-model invariant of spec section 3
("tasks (collection of Task, id unique)"). -/
def UniqueIds (ts : List Task) : Prop := (ts.map Task.id).Nodup

instance (ts : List Task) : Decidable (UniqueIds ts) := by
  unfold UniqueIds
  infer_instance

/-! ## Correctness of the cascade-delete closure -/

/-- One parent-to-child step among the tasks: `c` is the id of a task
whose `parentId` is `p`. -/
def ChildOf (ts : List Task) (p c : String) : Prop :=
  ∃ t ∈ ts, t.id = c ∧ t.parentId = some p

/-- `i` is the deletion root itself or one of its transitive descendants:
the reflexive-transitive closure of `ChildOf` from the root. -/
def Descendant (ts : List Task) (root i : String) : Prop :=
  Relation.ReflTransGen (ChildOf ts) root i

lemma contains_eq_false_iff {l : List String} {a : String} :
    l.contains a = false ↔ a ∉ l := by
  rw [← Bool.not_eq_true]
  exact not_congr List.elem_iff

lemma closureAdd_append (acc : List String) (t : Task) :
    ∃ l, closureAdd acc t = acc ++ l := by
  rcases hpar : t.parentId with _ | p
  · exact ⟨[], by simp [closureAdd, hpar]⟩
  · by_cases hp : p ∈ acc
    · by_cases hid : t.id ∈ acc
      · exact ⟨[], by simp [closureAdd, hpar, hp, hid]⟩
      · exact ⟨[t.id], by simp [closureAdd, hpar, hp, hid]⟩
    · exact ⟨[], by simp [closureAdd, hpar, hp]⟩

lemma closureStep_append (ts : List Task) :
    ∀ acc, ∃ l, closureStep ts acc = acc ++ l := by
  induction ts with
  | nil => exact fun acc => ⟨[], (List.append_nil acc).symm⟩
  | cons t ts ih =>
      intro acc
      obtain ⟨l1, h1⟩ := closureAdd_append acc t
      obtain ⟨l2, h2⟩ := ih (closureAdd acc t)
      refine ⟨l1 ++ l2, ?_⟩
      show closureStep ts (closureAdd acc t) = acc ++ (l1 ++ l2)
      rw [h2, h1, List.append_assoc]

lemma mem_closureStep_of_mem {a : String} (ts : List Task)
    (acc : List String) (h : a ∈ acc) : a ∈ closureStep ts acc := by
  obtain ⟨l, hl⟩ := closureStep_append ts acc
  rw [hl]
  exact List.mem_append_left _ h

lemma mem_closureAdd_cases {a : String} (acc : List String) (t : Task)
    (h : a ∈ closureAdd acc t) : a ∈ acc ∨ a = t.id := by
  rcases hpar : t.parentId with _ | p
  · simp only [closureAdd, hpar] at h
    exact Or.inl h
  · simp only [closureAdd, hpar] at h
    by_cases hp : acc.contains p = true
    · rw [if_pos hp] at h
      by_cases hid : acc.contains t.id = true
      · rw [if_pos hid] at h
        exact Or.inl h
      · rw [if_neg hid] at h
        rcases List.mem_append.mp h with h2 | h2
        · exact Or.inl h2
        · exact Or.inr (List.mem_singleton.mp h2)
    · rw [if_neg hp] at h
      exact Or.inl h

lemma mem_closureStep_cases {a : String} (ts : List Task) :
    ∀ acc, a ∈ closureStep ts acc → a ∈ acc ∨ ∃ t ∈ ts, a = t.id := by
  induction ts with
  | nil => exact fun _ h => Or.inl h
  | cons t ts ih =>
      intro acc h
      rcases ih (closureAdd acc t) h with h2 | ⟨u, hu, ha⟩
      · rcases mem_closureAdd_cases acc t h2 with h3 | h3
        · exact Or.inl h3
        · exact Or.inr ⟨t, List.mem_cons_self t ts, h3⟩
      · exact Or.inr ⟨u, List.mem_cons_of_mem _ hu, ha⟩

lemma nodup_append_singleton {x : String} {acc : List String}
    (h : acc.Nodup) (hx : x ∉ acc) : (acc ++ [x]).Nodup := by
  rw [List.nodup_append]
  refine ⟨h, List.nodup_singleton x, ?_⟩
  intro a ha hb
  rw [List.mem_singleton] at hb
  subst hb
  exact hx ha

lemma closureAdd_nodup (acc : List String) (t : Task) (h : acc.Nodup) :
    (closureAdd acc t).Nodup := by
  rcases hpar : t.parentId with _ | p
  · simpa [closureAdd, hpar] using h
  · simp only [closureAdd, hpar]
    by_cases hp : acc.contains p = true
    · rw [if_pos hp]
      by_cases hid : acc.contains t.id = true
      · rw [if_pos hid]
        exact h
      · rw [if_neg hid]
        exact nodup_append_singleton h
          (contains_eq_false_iff.mp (Bool.not_eq_true _ ▸ hid))
    · rw [if_neg hp]
      exact h

lemma closureStep_nodup (ts : List Task) :
    ∀ acc, acc.Nodup → (closureStep ts acc).Nodup := by
  induction ts with
  | nil => exact fun _ h => h
  | cons t ts ih =>
      intro acc h
      exact ih (closureAdd acc t) (closureAdd_nodup acc t h)

lemma closureStep_eq_of_length (ts : List Task) (acc : List String)
    (h : (closureStep ts acc).length = acc.length) :
    closureStep ts acc = acc := by
  obtain ⟨l, hl⟩ := closureStep_append ts acc
  rw [hl] at h ⊢
  rw [List.length_append] at h
  have hl0 : l.length = 0 := by omega
  rw [List.length_eq_zero.mp hl0, List.append_nil]

lemma mem_closureStep_child (ts : List Task) :
    ∀ (acc : List String) (t : Task) (p : String), t ∈ ts →
      t.parentId = some p → p ∈ acc → t.id ∈ closureStep ts acc := by
  induction ts with
  | nil => intro _ _ _ h; cases h
  | cons u us ih =>
      intro acc t p hmem hpar hp
      rcases List.mem_cons.mp hmem with rfl | hmem
      · show t.id ∈ closureStep us (closureAdd acc t)
        apply mem_closureStep_of_mem
        simp only [closureAdd, hpar]
        rw [if_pos (List.elem_iff.mpr hp)]
        by_cases hid : acc.contains t.id = true
        · rw [if_pos hid]
          exact List.elem_iff.mp hid
        · rw [if_neg hid]
          exact List.mem_append_right _ (List.mem_singleton_self _)
      · obtain ⟨l, hl⟩ := closureAdd_append acc u
        exact ih (closureAdd acc u) t p hmem hpar
          (by rw [hl]; exact List.mem_append_left _ hp)

lemma fixpoint_child (ts : List Task) (F : List String)
    (hfix : closureStep ts F = F) (t : Task) (p : String) (hmem : t ∈ ts)
    (hpar : t.parentId = some p) (hp : p ∈ F) : t.id ∈ F := by
  rw [← hfix]
  exact mem_closureStep_child ts F t p hmem hpar hp

/-- Proof-only measure: how many task ids are not yet collected. -/
def closurePotential (ts : List Task) (acc : List String) : Nat :=
  (((ts.map Task.id).dedup).filter (fun i => !(acc.contains i))).length

lemma potential_lt (ts : List Task) (acc : List String) (hnd : acc.Nodup)
    (hne : closureStep ts acc ≠ acc) :
    closurePotential ts (closureStep ts acc) < closurePotential ts acc := by
  obtain ⟨l, hl⟩ := closureStep_append ts acc
  have hlne : l ≠ [] := by
    intro h
    exact hne (by rw [hl, h, List.append_nil])
  obtain ⟨x, hx⟩ := List.exists_mem_of_ne_nil l hlne
  have hxstep : x ∈ closureStep ts acc := by
    rw [hl]
    exact List.mem_append_right _ hx
  have hxacc : x ∉ acc := by
    have hstepnd : (closureStep ts acc).Nodup := closureStep_nodup ts acc hnd
    rw [hl, List.nodup_append] at hstepnd
    exact fun hmem => hstepnd.2.2 hmem hx
  have hxid : x ∈ (ts.map Task.id).dedup := by
    rcases mem_closureStep_cases ts acc hxstep with h | ⟨t, ht, rfl⟩
    · exact absurd h hxacc
    · exact List.mem_dedup.mpr (List.mem_map_of_mem Task.id ht)
  have hsub : List.Sublist
      (((ts.map Task.id).dedup).filter
        (fun i => !((closureStep ts acc).contains i)))
      (((ts.map Task.id).dedup).filter (fun i => !(acc.contains i))) := by
    apply List.monotone_filter_right
    intro a ha
    rw [Bool.not_eq_true'] at ha ⊢
    rw [contains_eq_false_iff] at ha ⊢
    exact fun hmem => ha (mem_closureStep_of_mem ts acc hmem)
  have hxin : x ∈ ((ts.map Task.id).dedup).filter
      (fun i => !(acc.contains i)) := by
    rw [List.mem_filter]
    exact ⟨hxid, by rw [Bool.not_eq_true', contains_eq_false_iff]; exact hxacc⟩
  have hxout : x ∉ ((ts.map Task.id).dedup).filter
      (fun i => !((closureStep ts acc).contains i)) := by
    rw [List.mem_filter]
    rintro ⟨-, hbad⟩
    rw [Bool.not_eq_true', contains_eq_false_iff] at hbad
    exact hbad hxstep
  unfold closurePotential
  by_cases heq : (((ts.map Task.id).dedup).filter
      (fun i => !((closureStep ts acc).contains i))).length =
      (((ts.map Task.id).dedup).filter (fun i => !(acc.contains i))).length
  · exfalso
    have := (List.Sublist.length_eq hsub).mp heq
    rw [← this] at hxin
    exact hxout hxin
  · exact lt_of_le_of_ne hsub.length_le heq

lemma closureIter_reaches_fixpoint (ts : List Task) :
    ∀ (n : Nat) (acc : List String), acc.Nodup →
      closurePotential ts acc < n →
      closureStep ts (closureIter ts n acc) = closureIter ts n acc := by
  intro n
  induction n with
  | zero => intro acc _ h; omega
  | succ n ih =>
      intro acc hnd hpot
      have hunf : closureIter ts (n + 1) acc =
          if (closureStep ts acc).length = acc.length then acc
          else closureIter ts n (closureStep ts acc) := rfl
      by_cases hlen : (closureStep ts acc).length = acc.length
      · rw [hunf, if_pos hlen]
        exact closureStep_eq_of_length ts acc hlen
      · rw [hunf, if_neg hlen]
        apply ih (closureStep ts acc) (closureStep_nodup ts acc hnd)
        have hne : closureStep ts acc ≠ acc := fun h => hlen (by rw [h])
        have := potential_lt ts acc hnd hne
        omega

lemma mem_closureIter_of_mem {a : String} (ts : List Task) :
    ∀ (n : Nat) (acc : List String), a ∈ acc → a ∈ closureIter ts n acc := by
  intro n
  induction n with
  | zero => exact fun _ h => h
  | succ n ih =>
      intro acc h
      have hunf : closureIter ts (n + 1) acc =
          if (closureStep ts acc).length = acc.length then acc
          else closureIter ts n (closureStep ts acc) := rfl
      rw [hunf]
      by_cases hlen : (closureStep ts acc).length = acc.length
      · rw [if_pos hlen]
        exact h
      · rw [if_neg hlen]
        exact ih (closureStep ts acc) (mem_closureStep_of_mem ts acc h)

lemma closureStep_sound (ts : List Task) (D : String → Prop)
    (hD : ∀ t ∈ ts, ∀ p, t.parentId = some p → D p → D t.id) :
    ∀ acc, (∀ a ∈ acc, D a) → ∀ b ∈ closureStep ts acc, D b := by
  induction ts with
  | nil => exact fun _ hacc b hb => hacc b hb
  | cons u us ih =>
      intro acc hacc b hb
      refine ih (fun t ht p hp hDp => hD t (List.mem_cons_of_mem u ht) p hp hDp)
        (closureAdd acc u) ?_ b hb
      intro a ha
      rcases mem_closureAdd_cases acc u ha with h2 | h2
      · exact hacc a h2
      · rcases hpar : u.parentId with _ | p
        · simp only [closureAdd, hpar] at ha
          exact hacc a ha
        · simp only [closureAdd, hpar] at ha
          by_cases hp : acc.contains p = true
          · rw [h2]
            exact hD u (List.mem_cons_self u us) p hpar
              (hacc p (List.elem_iff.mp hp))
          · rw [if_neg hp] at ha
            exact hacc a ha

lemma closureIter_sound (ts : List Task) (D : String → Prop)
    (hD : ∀ t ∈ ts, ∀ p, t.parentId = some p → D p → D t.id) :
    ∀ (n : Nat) (acc : List String), (∀ a ∈ acc, D a) →
      ∀ b ∈ closureIter ts n acc, D b := by
  intro n
  induction n with
  | zero => exact fun _ hacc b hb => hacc b hb
  | succ n ih =>
      intro acc hacc b hb
      have hunf : closureIter ts (n + 1) acc =
          if (closureStep ts acc).length = acc.length then acc
          else closureIter ts n (closureStep ts acc) := rfl
      rw [hunf] at hb
      by_cases hlen : (closureStep ts acc).length = acc.length
      · rw [if_pos hlen] at hb
        exact hacc b hb
      · rw [if_neg hlen] at hb
        exact ih (closureStep ts acc) (closureStep_sound ts D hD acc hacc) b hb

lemma deleteClosure_potential_bound (ts : List Task) (root : String) :
    closurePotential ts [root] < ts.length + 1 := by
  unfold closurePotential
  have h1 := List.length_filter_le (fun i => !(([root] : List String).contains i))
    ((ts.map Task.id).dedup)
  have h2 := (List.dedup_sublist (ts.map Task.id)).length_le
  rw [List.length_map] at h2
  omega

/-- The computed `tasksToDelete` set is exactly the root together with its
transitive descendants. -/
lemma deleteClosure_spec (ts : List Task) (root i : String) :
    i ∈ deleteClosure ts root ↔ Descendant ts root i := by
  constructor
  · intro h
    refine closureIter_sound ts (Descendant ts root) ?_ (ts.length + 1)
      [root] ?_ i h
    · intro t ht p hp hDp
      exact Relation.ReflTransGen.tail hDp ⟨t, ht, rfl, hp⟩
    · intro a ha
      rw [List.mem_singleton] at ha
      subst ha
      exact Relation.ReflTransGen.refl
  · intro h
    have hfix := closureIter_reaches_fixpoint ts (ts.length + 1) [root]
      (List.nodup_singleton root) (deleteClosure_potential_bound ts root)
    induction h with
    | refl =>
        exact mem_closureIter_of_mem ts (ts.length + 1) [root]
          (List.mem_singleton_self root)
    | tail hab hbc ih =>
        obtain ⟨t, ht, htid, htpar⟩ := hbc
        subst htid
        exact fixpoint_child ts _ hfix t _ ht htpar ih

/-! ## Lemmas about the JS-object model and counting -/

lemma find?_cons_pos {α : Type} (p : α → Bool) (a : α) (l : List α)
    (h : p a = true) : (a :: l).find? p = some a := by
  simp [List.find?_cons, h]

lemma find?_cons_neg {α : Type} (p : α → Bool) (a : α) (l : List α)
    (h : p a = false) : (a :: l).find? p = l.find? p := by
  simp [List.find?_cons, h]

lemma find?_map_recSet {α : Type} (m : List (String × α)) (k : String)
    (v : α) :
    ((m.map (fun e => if e.1 == k then (k, v) else e)).find?
        (fun e => e.1 == k)) =
      if m.any (fun e => e.1 == k) then some (k, v) else none := by
  induction m with
  | nil => rfl
  | cons e m ih =>
      rw [List.map_cons]
      cases he : (e.1 == k) with
      | true =>
          rw [if_pos (rfl : (true : Bool) = true),
            find?_cons_pos (fun e => e.1 == k) ((k, v) : String × α) _
              (beq_self_eq_true k)]
          have hany : (e :: m).any (fun x => x.1 == k) = true := by
            rw [List.any_cons, he, Bool.true_or]
          rw [if_pos hany]
      | false =>
          rw [if_neg Bool.false_ne_true,
            find?_cons_neg (fun e => e.1 == k) e _ he, ih]
          have hany : (e :: m).any (fun x => x.1 == k) =
              m.any (fun x => x.1 == k) := by
            rw [List.any_cons, he, Bool.false_or]
          rw [hany]

lemma find?_map_recSet_ne {α : Type} (m : List (String × α)) (k q : String)
    (v : α) (hq : q ≠ k) :
    ((m.map (fun e => if e.1 == k then (k, v) else e)).find?
        (fun e => e.1 == q)) =
      m.find? (fun e => e.1 == q) := by
  induction m with
  | nil => rfl
  | cons e m ih =>
      rw [List.map_cons]
      cases he : (e.1 == k) with
      | true =>
          have hek : e.1 = k := eq_of_beq he
          have h1 : ((k : String) == q) = false :=
            beq_eq_false_iff_ne.mpr (fun h => hq h.symm)
          have h2 : (e.1 == q) = false := by rw [hek]; exact h1
          rw [if_pos (rfl : (true : Bool) = true),
            find?_cons_neg (fun e => e.1 == q) ((k, v) : String × α) _ h1,
            ih, find?_cons_neg (fun e => e.1 == q) e _ h2]
      | false =>
          rw [if_neg Bool.false_ne_true]
          cases hq2 : (e.1 == q) with
          | true =>
              rw [find?_cons_pos (fun e => e.1 == q) e _ hq2,
                find?_cons_pos (fun e => e.1 == q) e _ hq2]
          | false =>
              rw [find?_cons_neg (fun e => e.1 == q) e _ hq2, ih,
                find?_cons_neg (fun e => e.1 == q) e _ hq2]

lemma recGet_recSet_self {α : Type} (m : List (String × α)) (k : String)
    (v : α) : recGet (recSet m k v) k = some v := by
  unfold recGet recSet
  cases hany : m.any (fun e => e.1 == k) with
  | true =>
      rw [if_pos (rfl : (true : Bool) = true), find?_map_recSet, if_pos hany]
      rfl
  | false =>
      rw [if_neg Bool.false_ne_true, List.find?_append]
      have hnone : m.find? (fun e => e.1 == k) = none := by
        rw [List.find?_eq_none]
        intro e he hbad
        exact absurd hbad (by
          exact List.any_eq_false.mp hany e he)
      rw [hnone,
        find?_cons_pos (fun e => e.1 == k) ((k, v) : String × α) _
          (beq_self_eq_true k)]
      rfl

lemma recGet_recSet_ne {α : Type} (m : List (String × α)) (k q : String)
    (v : α) (hq : q ≠ k) : recGet (recSet m k v) q = recGet m q := by
  unfold recGet recSet
  cases hany : m.any (fun e => e.1 == k) with
  | true =>
      rw [if_pos (rfl : (true : Bool) = true), find?_map_recSet_ne m k q v hq]
  | false =>
      rw [if_neg Bool.false_ne_true, List.find?_append]
      have h1 : ((k : String) == q) = false :=
        beq_eq_false_iff_ne.mpr (fun h => hq h.symm)
      have hlast : (([((k, v) : String × α)]).find? (fun e => e.1 == q)) =
          none := by
        rw [find?_cons_neg (fun e => e.1 == q) ((k, v) : String × α) _ h1]
        rfl
      rw [hlast]
      cases hfm : m.find? (fun e => e.1 == q) <;> rfl

lemma recGet_appendLog_self (log : List (String × List ActivityLog))
    (pid : String) (e : ActivityLog) :
    recGet (appendLog log pid e) pid =
      some ((recGet log pid).getD [] ++ [e]) := by
  unfold appendLog
  exact recGet_recSet_self log pid _

lemma recGet_appendLog_ne (log : List (String × List ActivityLog))
    (pid : String) (e : ActivityLog) (q : String) (hq : q ≠ pid) :
    recGet (appendLog log pid e) q = recGet log q := by
  unfold appendLog
  exact recGet_recSet_ne log pid q _ hq

lemma length_filter_split {α : Type} (p : α → Bool) (l : List α) :
    l.length = (l.filter p).length + (l.filter (fun a => !(p a))).length := by
  induction l with
  | nil => rfl
  | cons a l ih =>
      cases hp : p a <;> simp [List.filter_cons, hp] <;> omega

lemma length_filter_and_split {α : Type} (p q : α → Bool) (l : List α) :
    (l.filter p).length =
      (l.filter (fun a => p a && q a)).length +
        (l.filter (fun a => p a && !(q a))).length := by
  induction l with
  | nil => rfl
  | cons a l ih =>
      cases hp : p a <;> cases hq : q a <;>
        simp [List.filter_cons, hp, hq] <;> omega

lemma filter_beq_id_singleton (task : Task) (x : String)
    (hid : task.id = x) :
    ∀ ts : List Task, UniqueIds ts → task ∈ ts →
      ts.filter (fun t => t.id == x) = [task] := by
  intro ts
  induction ts with
  | nil => intro _ h; cases h
  | cons u us ih =>
      intro hids hmem
      have h' : u.id ∉ us.map Task.id ∧ (us.map Task.id).Nodup := by
        unfold UniqueIds at hids
        rw [List.map_cons, List.nodup_cons] at hids
        exact hids
      rcases List.mem_cons.mp hmem with rfl | hmem
      · have hxx : (task.id == x) = true := by
          rw [hid]
          exact beq_self_eq_true x
        have hfil : us.filter (fun t => t.id == x) = [] := by
          rw [List.filter_eq_nil_iff]
          intro t ht hbad
          have htid : t.id = x := eq_of_beq hbad
          exact h'.1 (by
            rw [hid]
            exact htid ▸ List.mem_map_of_mem Task.id ht)
        simp [List.filter_cons, hxx, hfil]
      · have hux : (u.id == x) = false := by
          rw [beq_eq_false_iff_ne]
          intro h
          exact h'.1 (by
            rw [h, ← hid]
            exact List.mem_map_of_mem Task.id hmem)
        simp only [List.filter_cons, hux, Bool.false_eq_true, if_false]
        exact ih h'.2 hmem

lemma handleDeleteTask_found (nowMs : Nat) (nowIso : String)
    (taskId : String) (s : AppState) (task : Task)
    (hfind : s.tasks.find? (fun t => t.id == taskId) = some task) :
    handleDeleteTask nowMs nowIso taskId s =
      { s with
        tasks := s.tasks.filter
          (fun t => !((deleteClosure s.tasks taskId).contains t.id)),
        activityLog := appendLog s.activityLog task.projectId
          (createActivityLogEntry nowMs nowIso
            ("deleted task \"" ++ task.title ++ "\".")) } := by
  unfold handleDeleteTask
  rw [hfind]

/-- **C2.** Deleting a present task removes exactly the task and all of
its transitive descendants (the computed closure set is precisely the
`Descendant` relation, so a task with `N` transitive descendants causes
exactly `N + 1` removals) and appends exactly one "deleted task" entry on
the deleted task's project, for the top-level task only. -/
theorem delete_task_c2 (nowMs : Nat) (nowIso : String) (taskId : String)
    (s : AppState) (task : Task)
    (hfind : s.tasks.find? (fun t => t.id == taskId) = some task)
    (hids : UniqueIds s.tasks) :
    (∀ i, i ∈ deleteClosure s.tasks taskId ↔ Descendant s.tasks taskId i) ∧
    (∀ t ∈ s.tasks,
        (t ∈ (handleDeleteTask nowMs nowIso taskId s).tasks ↔
          ¬ Descendant s.tasks taskId t.id)) ∧
    (s.tasks.length =
        (handleDeleteTask nowMs nowIso taskId s).tasks.length +
          ((s.tasks.filter (fun t =>
              (deleteClosure s.tasks taskId).contains t.id &&
                !(t.id == taskId))).length + 1)) ∧
    recGet (handleDeleteTask nowMs nowIso taskId s).activityLog
        task.projectId =
      some ((recGet s.activityLog task.projectId).getD [] ++
        [createActivityLogEntry nowMs nowIso
          ("deleted task \"" ++ task.title ++ "\".")]) := by
  have hdel := handleDeleteTask_found nowMs nowIso taskId s task hfind
  have hroot : taskId ∈ deleteClosure s.tasks taskId :=
    mem_closureIter_of_mem s.tasks (s.tasks.length + 1) [taskId]
      (List.mem_singleton_self taskId)
  refine ⟨fun i => deleteClosure_spec s.tasks taskId i, ?_, ?_, ?_⟩
  · intro t ht
    rw [hdel]
    simp only
    rw [List.mem_filter]
    constructor
    · rintro ⟨-, hcond⟩
      rw [Bool.not_eq_true', contains_eq_false_iff] at hcond
      exact fun hd => hcond ((deleteClosure_spec s.tasks taskId t.id).mpr hd)
    · intro hnd
      refine ⟨ht, ?_⟩
      rw [Bool.not_eq_true', contains_eq_false_iff]
      exact fun hc => hnd ((deleteClosure_spec s.tasks taskId t.id).mp hc)
  · rw [hdel]
    simp only
    have hsplit := length_filter_split
      (fun t => (deleteClosure s.tasks taskId).contains t.id) s.tasks
    have hand := length_filter_and_split
      (fun t => (deleteClosure s.tasks taskId).contains t.id)
      (fun t => !(t.id == taskId)) s.tasks
    have hcongr : s.tasks.filter (fun t =>
        (deleteClosure s.tasks taskId).contains t.id &&
          !(!(t.id == taskId))) =
        s.tasks.filter (fun t => t.id == taskId) := by
      apply List.filter_congr
      intro t ht
      cases hb : (t.id == taskId)
      · simp [hb]
      · simp only [hb, Bool.not_true, Bool.not_false, Bool.and_true]
        exact List.elem_iff.mpr (eq_of_beq hb ▸ hroot)
    have hpred : (task.id == taskId) = true :=
      @List.find?_some Task (fun t => t.id == taskId) task s.tasks hfind
    have hone : s.tasks.filter (fun t => t.id == taskId) = [task] :=
      filter_beq_id_singleton task taskId (eq_of_beq hpred)
        s.tasks hids (List.mem_of_find?_eq_some hfind)
    rw [hcongr, hone] at hand
    simp only [List.length_singleton] at hand
    omega
  · rw [hdel]
    simp only
    exact recGet_appendLog_self s.activityLog task.projectId _

/-- Witness state for the C2 and C1 theorems: project `p1` holding a
parent task with one child and one unrelated task. -/
def deleteDemoParent : Task :=
  { id := "t1", projectId := "p1", parentId := none, title := "A",
    description := "", status := .toDo, priority := .medium,
    startDate := none, dueDate := none, tags := [], isFocused := false,
    createdAt := "c1", order := 0 }

/-- Child of `deleteDemoParent`. -/
def deleteDemoChild : Task :=
  { id := "t2", projectId := "p1", parentId := some "t1", title := "B",
    description := "", status := .toDo, priority := .medium,
    startDate := none, dueDate := none, tags := [], isFocused := false,
    createdAt := "c2", order := 0 }

/-- A task unrelated to the deletion. -/
def deleteDemoOther : Task :=
  { id := "t3", projectId := "p1", parentId := none, title := "C",
    description := "", status := .toDo, priority := .medium,
    startDate := none, dueDate := none, tags := [], isFocused := false,
    createdAt := "c3", order := 1 }

/-- Demo state with the three tasks above. -/
def deleteDemoState : AppState :=
  { projects := [], tasks := [deleteDemoParent, deleteDemoChild, deleteDemoOther],
    comments := [], activityLog := [] }

/-- Witness for C2 at a concrete input: deleting `t1` (one descendant)
removes two tasks and appends one log entry on project `p1`. -/
theorem delete_task_c2_witness :
    (∀ i, i ∈ deleteClosure deleteDemoState.tasks "t1" ↔
        Descendant deleteDemoState.tasks "t1" i) ∧
    (∀ t ∈ deleteDemoState.tasks,
        (t ∈ (handleDeleteTask 7 "now" "t1" deleteDemoState).tasks ↔
          ¬ Descendant deleteDemoState.tasks "t1" t.id)) ∧
    (deleteDemoState.tasks.length =
        (handleDeleteTask 7 "now" "t1" deleteDemoState).tasks.length +
          ((deleteDemoState.tasks.filter (fun t =>
              (deleteClosure deleteDemoState.tasks "t1").contains t.id &&
                !(t.id == "t1"))).length + 1)) ∧
    recGet (handleDeleteTask 7 "now" "t1" deleteDemoState).activityLog
        deleteDemoParent.projectId =
      some ((recGet deleteDemoState.activityLog
          deleteDemoParent.projectId).getD [] ++
        [createActivityLogEntry 7 "now"
          ("deleted task \"" ++ deleteDemoParent.title ++ "\".")]) :=
  delete_task_c2 7 "now" "t1" deleteDemoState deleteDemoParent
    (by decide) (by decide)

/-- **C10.** Deleting a present task leaves every surviving task entirely
unchanged (survivors are element-wise the original tasks, in the original
relative order, so no sibling renumbering happens on delete), and leaves
projects, comments, and all other projects' activity logs unchanged. -/
theorem delete_task_frame_c10 (nowMs : Nat) (nowIso : String)
    (taskId : String) (s : AppState) (task : Task)
    (hfind : s.tasks.find? (fun t => t.id == taskId) = some task) :
    (∀ t ∈ (handleDeleteTask nowMs nowIso taskId s).tasks, t ∈ s.tasks) ∧
    List.Sublist (handleDeleteTask nowMs nowIso taskId s).tasks s.tasks ∧
    (handleDeleteTask nowMs nowIso taskId s).projects = s.projects ∧
    (handleDeleteTask nowMs nowIso taskId s).comments = s.comments ∧
    (∀ q, q ≠ task.projectId →
        recGet (handleDeleteTask nowMs nowIso taskId s).activityLog q =
          recGet s.activityLog q) := by
  have hdel := handleDeleteTask_found nowMs nowIso taskId s task hfind
  rw [hdel]
  refine ⟨?_, ?_, rfl, rfl, ?_⟩
  · intro t ht
    exact (List.mem_filter.mp ht).1
  · exact List.filter_sublist s.tasks
  · intro q hq
    exact recGet_appendLog_ne s.activityLog task.projectId _ q hq

/-- Witness for C10 at a concrete input. -/
theorem delete_task_frame_c10_witness :
    (∀ t ∈ (handleDeleteTask 7 "now" "t1" deleteDemoState).tasks,
        t ∈ deleteDemoState.tasks) ∧
    List.Sublist (handleDeleteTask 7 "now" "t1" deleteDemoState).tasks
      deleteDemoState.tasks ∧
    (handleDeleteTask 7 "now" "t1" deleteDemoState).projects =
        deleteDemoState.projects ∧
    (handleDeleteTask 7 "now" "t1" deleteDemoState).comments =
        deleteDemoState.comments ∧
    (∀ q, q ≠ deleteDemoParent.projectId →
        recGet (handleDeleteTask 7 "now" "t1" deleteDemoState).activityLog
            q =
          recGet deleteDemoState.activityLog q) :=
  delete_task_frame_c10 7 "now" "t1" deleteDemoState deleteDemoParent
    (by decide)

/-! ## Reordering (C7) -/

instance : IsTotal Task (fun a b => a.order ≤ b.order) :=
  ⟨fun a b => Int.le_total a.order b.order⟩

instance : IsTrans Task (fun a b => a.order ≤ b.order) :=
  ⟨fun _ _ _ hab hbc => le_trans hab hbc⟩

/-- First task of the reorder example (order 0). -/
def reorderT1 : Task :=
  { id := "t1", projectId := "p", parentId := none, title := "T1",
    description := "", status := .toDo, priority := .medium,
    startDate := none, dueDate := none, tags := [], isFocused := false,
    createdAt := "c", order := 0 }

/-- Second task of the reorder example (order 1). -/
def reorderT2 : Task :=
  { reorderT1 with id := "t2", title := "T2", order := 1 }

/-- Third task of the reorder example (order 2). -/
def reorderT3 : Task :=
  { reorderT1 with id := "t3", title := "T3", order := 2 }

/-- **C7 (counterexample).** Dragging `T1` onto `T3` with position `top`
among siblings `[T1, T2, T3]` yields `[T2, T1, T3]` (orders 0, 1, 2), not
the claimed `[T3, T1, T2]`: the dragged item is inserted immediately
before the target, so the target stays after it and `T2` moves to the
front. -/
theorem reorder_c7_counterexample :
    handleReorder "t1" "t3" [reorderT1, reorderT2, reorderT3]
        DropPosition.top =
      [{ reorderT2 with order := 0 }, { reorderT1 with order := 1 },
        { reorderT3 with order := 2 }] ∧
    handleReorder "t1" "t3" [reorderT1, reorderT2, reorderT3]
        DropPosition.top ≠
      [{ reorderT3 with order := 0 }, { reorderT1 with order := 1 },
        { reorderT2 with order := 2 }] := by
  constructor
  · decide
  · decide

/-- **C7 (amended).** For any sibling list `[T1, T2, T3]` with orders
0, 1, 2 and distinct ids, `handleReorder(T1, T3, top)` inserts the
dragged task immediately before the target: the result is `[T2, T1, T3]`
with orders renumbered 0, 1, 2 matching the new positions. -/
theorem reorder_c7_amended (t1 t2 t3 : Task)
    (h1 : t1.order = 0) (h2 : t2.order = 1) (h3 : t3.order = 2)
    (h12 : t1.id ≠ t2.id) (h13 : t1.id ≠ t3.id) (h23 : t2.id ≠ t3.id) :
    handleReorder t1.id t3.id [t1, t2, t3] DropPosition.top =
      [{ t2 with order := 0 }, { t1 with order := 1 },
        { t3 with order := 2 }] := by
  have hfind : [t1, t2, t3].find? (fun p => p.id == t1.id) = some t1 :=
    find?_cons_pos _ _ _ (beq_self_eq_true t1.id)
  have hb21 : (t2.id == t1.id) = false :=
    beq_eq_false_iff_ne.mpr (fun h => h12 h.symm)
  have hb31 : (t3.id == t1.id) = false :=
    beq_eq_false_iff_ne.mpr (fun h => h13 h.symm)
  have hb23 : (t2.id == t3.id) = false := beq_eq_false_iff_ne.mpr h23
  have hfilter : [t1, t2, t3].filter (fun p => !(p.id == t1.id)) =
      [t2, t3] := by
    simp [List.filter_cons, hb21, hb31]
  have hsort : sortByOrder [t2, t3] = [t2, t3] := by
    unfold sortByOrder
    simp [List.insertionSort, List.orderedInsert, h2, h3]
  have hidx : [t2, t3].findIdx? (fun p => p.id == t3.id) = some 1 := by
    simp [List.findIdx?_cons, hb23]
  have hne : DropPosition.top ≠ DropPosition.bottom := by decide
  simp only [handleReorder, hfind, hfilter, hsort, hidx, hne, if_false,
    ite_false]
  rfl

/-- Witness for the amended C7 at the concrete example tasks. -/
theorem reorder_c7_amended_witness :
    handleReorder reorderT1.id reorderT3.id
        [reorderT1, reorderT2, reorderT3] DropPosition.top =
      [{ reorderT2 with order := 0 }, { reorderT1 with order := 1 },
        { reorderT3 with order := 2 }] :=
  reorder_c7_amended reorderT1 reorderT2 reorderT3 (by decide) (by decide)
    (by decide) (by decide) (by decide) (by decide)

/-! ## Density machinery for C1 and C6 -/

lemma mem_taskGroup {t : Task} {pid : String} {par : Option String}
    {ts : List Task} :
    t ∈ taskGroup pid par ts ↔
      t ∈ ts ∧ t.projectId = pid ∧ t.parentId = par := by
  unfold taskGroup
  rw [List.mem_filter, decide_eq_true_eq]

lemma taskGroup_append (pid : String) (par : Option String)
    (l1 l2 : List Task) :
    taskGroup pid par (l1 ++ l2) =
      taskGroup pid par l1 ++ taskGroup pid par l2 := by
  unfold taskGroup
  exact List.filter_append _ _

lemma taskGroup_filter_comm (pid : String) (par : Option String)
    (p : Task → Bool) (ts : List Task) :
    taskGroup pid par (ts.filter p) = (taskGroup pid par ts).filter p := by
  unfold taskGroup
  rw [List.filter_filter, List.filter_filter]
  congr 1
  funext t
  rw [Bool.and_comm]

lemma renumberFrom_length (n : Nat) (l : List Task) :
    (renumberFrom n l).length = l.length := by
  induction l generalizing n with
  | nil => rfl
  | cons t ts ih => simp [renumberFrom, ih]

lemma renumberFrom_map_order (n : Nat) (l : List Task) :
    (renumberFrom n l).map Task.order =
      (List.range' n l.length).map Int.ofNat := by
  induction l generalizing n with
  | nil => rfl
  | cons t ts ih => simp [renumberFrom, List.range'_succ, ih]

lemma renumberFrom_map_id (n : Nat) (l : List Task) :
    (renumberFrom n l).map Task.id = l.map Task.id := by
  induction l generalizing n with
  | nil => rfl
  | cons t ts ih => simp [renumberFrom, ih]

lemma mem_renumberFrom_order (m : Nat) (l : List Task) (v : Task)
    (hv : v ∈ renumberFrom m l) :
    (m : Int) ≤ v.order ∧ v.order < (m : Int) + l.length := by
  induction l generalizing m with
  | nil => cases hv
  | cons t ts ih =>
      rcases List.mem_cons.mp hv with rfl | hv
      · constructor
        · exact le_refl _
        · simp only [List.length_cons]
          push_cast
          omega
      · obtain ⟨h1, h2⟩ := ih (m + 1) hv
        push_cast at h1 h2 ⊢
        simp only [List.length_cons]
        push_cast
        omega

lemma mem_renumberFrom_shape (m : Nat) (l : List Task) (v : Task)
    (hv : v ∈ renumberFrom m l) :
    ∃ v0 ∈ l, v = { v0 with order := v.order } := by
  induction l generalizing m with
  | nil => cases hv
  | cons t ts ih =>
      rcases List.mem_cons.mp hv with rfl | hv
      · exact ⟨t, List.mem_cons_self t ts, rfl⟩
      · obtain ⟨v0, h1, h2⟩ := ih (m + 1) hv
        exact ⟨v0, List.mem_cons_of_mem t h1, h2⟩

lemma renumberFrom_mem_src (m : Nat) (l : List Task) (t : Task)
    (ht : t ∈ l) : ∃ k : Int, { t with order := k } ∈ renumberFrom m l := by
  induction l generalizing m with
  | nil => cases ht
  | cons u us ih =>
      rcases List.mem_cons.mp ht with rfl | ht
      · exact ⟨(m : Int), List.mem_cons_self _ _⟩
      · obtain ⟨k, hk⟩ := ih (m + 1) ht
        exact ⟨k, List.mem_cons_of_mem _ hk⟩

lemma renumberFrom_pairwise (m : Nat) (l : List Task) :
    List.Pairwise (fun u v : Task => u.order < v.order)
      (renumberFrom m l) := by
  induction l generalizing m with
  | nil => exact List.Pairwise.nil
  | cons t ts ih =>
      refine List.Pairwise.cons ?_ (ih (m + 1))
      intro v hv
      have := (mem_renumberFrom_order (m + 1) ts v hv).1
      simp only
      push_cast at this ⊢
      omega

lemma sortByOrder_perm (l : List Task) : (sortByOrder l).Perm l :=
  List.perm_insertionSort _ l

lemma sortByOrder_sorted (l : List Task) :
    List.Sorted (fun a b : Task => a.order ≤ b.order) (sortByOrder l) :=
  List.sorted_insertionSort _ l

lemma denseGroup_of_perm {l l' : List Task} (h : l.Perm l')
    (hd : DenseGroup l) : DenseGroup l' := by
  unfold DenseGroup at *
  have hlen : l.length = l'.length := h.length_eq
  refine ((h.map Task.order).symm.trans hd).trans ?_
  rw [hlen]

lemma denseGroup_nodup_orders {l : List Task} (hd : DenseGroup l) :
    (l.map Task.order).Nodup := by
  unfold DenseGroup at hd
  exact hd.nodup_iff.mpr
    ((List.nodup_range _).map (fun a b h => Int.ofNat.inj h))

lemma denseGroup_append_last (g : List Task) (t : Task)
    (hd : DenseGroup g) (ht : t.order = (g.length : Int)) :
    DenseGroup (g ++ [t]) := by
  unfold DenseGroup at *
  rw [List.map_append, List.length_append, List.map_singleton, ht,
    List.length_singleton, List.range_succ, List.map_append,
    List.map_singleton]
  exact hd.append (List.Perm.refl _)

lemma renumber_dense (l : List Task) : DenseGroup (renumber l) := by
  unfold DenseGroup renumber
  rw [renumberFrom_map_order, renumberFrom_length, List.range_eq_range']

instance : RightCommutative (fun (mx o : Int) => max o mx) :=
  ⟨fun b a₁ a₂ => max_left_comm a₂ a₁ b⟩

lemma foldl_max_range (n : Nat) :
    ((List.range n).map Int.ofNat).foldl (fun mx o => max o mx) (-1) =
      (n : Int) - 1 := by
  induction n with
  | zero => simp
  | succ n ih =>
      rw [List.range_succ, List.map_append, List.foldl_append, ih,
        List.map_singleton, List.foldl_cons, List.foldl_nil]
      simp only [Int.ofNat_eq_natCast]
      rw [max_eq_left (by push_cast; omega)]
      push_cast
      omega

lemma foldl_max_of_dense (g : List Task) (hd : DenseGroup g) :
    g.foldl (fun mx t => max t.order mx) (-1) = (g.length : Int) - 1 := by
  have h1 : g.foldl (fun mx t => max t.order mx) (-1) =
      (g.map Task.order).foldl (fun mx o => max o mx) (-1) := by
    rw [List.foldl_map]
  rw [h1, List.Perm.foldl_eq hd (-1), foldl_max_range]

lemma allDense_iff_mem (ts : List Task) :
    AllDense ts ↔
      ∀ t ∈ ts, DenseGroup (taskGroup t.projectId t.parentId ts) := by
  constructor
  · exact fun h t _ => h _ _
  · intro h pid par
    by_cases hx : ∃ t ∈ ts, t.projectId = pid ∧ t.parentId = par
    · obtain ⟨t, ht, h1, h2⟩ := hx
      rw [← h1, ← h2]
      exact h t ht
    · have hnil : taskGroup pid par ts = [] := by
        unfold taskGroup
        rw [List.filter_eq_nil_iff]
        intro t ht hbad
        rw [decide_eq_true_eq] at hbad
        exact hx ⟨t, ht, hbad⟩
      rw [hnil]
      decide

lemma eq_of_mem_of_id_eq {ts : List Task} (hids : UniqueIds ts)
    {a b : Task} (ha : a ∈ ts) (hb : b ∈ ts) (hid : a.id = b.id) : a = b :=
  List.inj_on_of_nodup_map hids ha hb hid

lemma find?_id_self (l : List Task) (hnd : (l.map Task.id).Nodup)
    (u : Task) (hu : u ∈ l) :
    l.find? (fun x => x.id == u.id) = some u := by
  induction l with
  | nil => cases hu
  | cons v vs ih =>
      rw [List.map_cons, List.nodup_cons] at hnd
      rcases List.mem_cons.mp hu with rfl | hu
      · exact find?_cons_pos (fun x => x.id == u.id) u vs
          (beq_self_eq_true u.id)
      · have hvu : (v.id == u.id) = false := by
          rw [beq_eq_false_iff_ne]
          intro h
          exact hnd.1 (h ▸ List.mem_map_of_mem Task.id hu)
        rw [find?_cons_neg (fun x => x.id == u.id) v vs hvu]
        exact ih hnd.2 hu

lemma map_find_getD_perm (l l' : List Task)
    (hid : (l.map Task.id).Perm (l'.map Task.id))
    (hnd : (l'.map Task.id).Nodup) :
    (l.map (fun t => (l'.find? (fun u => u.id == t.id)).getD t)).Perm l' := by
  have hfun : ∀ t ∈ l,
      (l'.find? (fun u => u.id == t.id)).getD t =
        (l'.find? (fun u => u.id == t.id)).getD default := by
    intro t ht
    have hex : ∃ x ∈ l', (x.id == t.id) = true := by
      have hmm : t.id ∈ l'.map Task.id :=
        hid.mem_iff.mp (List.mem_map_of_mem Task.id ht)
      obtain ⟨x, hx, hxe⟩ := List.mem_map.mp hmm
      exact ⟨x, hx, by rw [hxe]; exact beq_self_eq_true t.id⟩
    rcases hfind : l'.find? (fun u => u.id == t.id) with _ | u
    · exfalso
      obtain ⟨x, hx, hxe⟩ := hex
      exact absurd hxe (List.find?_eq_none.mp hfind x hx)
    · rw [hfind]
      rfl
  have hmain : l.map (fun t => (l'.find? (fun u => u.id == t.id)).getD t) =
      (l.map Task.id).map
        (fun i => (l'.find? (fun u => u.id == i)).getD default) := by
    rw [List.map_congr_left hfun, List.map_map]
    rfl
  rw [hmain]
  refine (hid.map
    (fun i => (l'.find? (fun u => u.id == i)).getD default)).trans ?_
  have hlast : (l'.map Task.id).map
      (fun i => (l'.find? (fun u => u.id == i)).getD default) = l' := by
    rw [List.map_map]
    have hcongr : ∀ u ∈ l',
        ((fun i => (l'.find? (fun x => x.id == i)).getD default) ∘ Task.id)
            u = u := by
      intro u hu
      show (l'.find? (fun x => x.id == u.id)).getD default = u
      rw [find?_id_self l' hnd u hu]
      rfl
    rw [List.map_congr_left hcongr, List.map_id']
  rw [hlast]

lemma mem_editOtherTasks {t orig : Task} {ts : List Task} :
    t ∈ editOtherTasks orig ts ↔ t ∈ ts ∧ t.id ≠ orig.id := by
  unfold editOtherTasks
  rw [List.mem_filter]
  constructor
  · rintro ⟨h1, h2⟩
    rw [Bool.not_eq_true', beq_eq_false_iff_ne] at h2
    exact ⟨h1, h2⟩
  · rintro ⟨h1, h2⟩
    refine ⟨h1, ?_⟩
    rw [Bool.not_eq_true', beq_eq_false_iff_ne]
    exact h2

lemma editOtherTasks_unique {orig : Task} {ts : List Task}
    (hids : UniqueIds ts) : UniqueIds (editOtherTasks orig ts) := by
  unfold UniqueIds editOtherTasks at *
  exact List.Nodup.sublist (List.Sublist.map Task.id (List.filter_sublist ts))
    hids

lemma taskGroup_editOtherTasks (orig : Task) (ts : List Task)
    (hids : UniqueIds ts) (hmem : orig ∈ ts)
    (p : String) (q : Option String)
    (hk : ¬(orig.projectId = p ∧ orig.parentId = q)) :
    taskGroup p q (editOtherTasks orig ts) = taskGroup p q ts := by
  unfold editOtherTasks
  rw [taskGroup_filter_comm]
  apply List.filter_eq_self.mpr
  intro t ht
  obtain ⟨hts, h1, h2⟩ := mem_taskGroup.mp ht
  rw [Bool.not_eq_true', beq_eq_false_iff_ne]
  intro hbad
  have hto : t = orig := eq_of_mem_of_id_eq hids hts hmem hbad
  exact hk ⟨hto ▸ h1, hto ▸ h2⟩

lemma editOldSiblings_map_id (orig : Task) (ts : List Task) :
    (editOldSiblings orig ts).map Task.id =
      (sortByOrder (taskGroup orig.projectId orig.parentId
        (editOtherTasks orig ts))).map Task.id := by
  unfold editOldSiblings renumber
  exact renumberFrom_map_id 0 _

lemma editOldSiblings_ids_perm (orig : Task) (ts : List Task) :
    ((taskGroup orig.projectId orig.parentId
        (editOtherTasks orig ts)).map Task.id).Perm
      ((editOldSiblings orig ts).map Task.id) := by
  rw [editOldSiblings_map_id]
  exact ((sortByOrder_perm _).map Task.id).symm

lemma taskGroup_ids_nodup {p : String} {q : Option String} {ts : List Task}
    (hids : UniqueIds ts) : ((taskGroup p q ts).map Task.id).Nodup := by
  unfold taskGroup
  exact List.Nodup.sublist
    (List.Sublist.map Task.id (List.filter_sublist ts)) hids

lemma editOldSiblings_ids_nodup (orig : Task) (ts : List Task)
    (hids : UniqueIds ts) :
    ((editOldSiblings orig ts).map Task.id).Nodup :=
  ((editOldSiblings_ids_perm orig ts).nodup_iff).mp
    (taskGroup_ids_nodup (editOtherTasks_unique hids))

lemma editLookup_group (orig : Task) (ts : List Task)
    (hids : UniqueIds ts) (t : Task)
    (ht : t ∈ taskGroup orig.projectId orig.parentId
      (editOtherTasks orig ts)) :
    ∃ k : Int, editLookup orig ts t = { t with order := k } ∧
      (editOldSiblings orig ts).find? (fun u => u.id == t.id) =
        some { t with order := k } := by
  have hts : t ∈ sortByOrder (taskGroup orig.projectId orig.parentId
      (editOtherTasks orig ts)) := (sortByOrder_perm _).mem_iff.mpr ht
  obtain ⟨k, hk⟩ := renumberFrom_mem_src 0 _ t hts
  have hkmem : { t with order := k } ∈ editOldSiblings orig ts := hk
  have hfind : (editOldSiblings orig ts).find?
      (fun u => u.id == t.id) = some { t with order := k } :=
    find?_id_self (editOldSiblings orig ts)
      (editOldSiblings_ids_nodup orig ts hids) { t with order := k } hkmem
  refine ⟨k, ?_, hfind⟩
  unfold editLookup
  rw [hfind]
  rfl

lemma editLookup_nongroup (orig : Task) (ts : List Task)
    (hids : UniqueIds ts) (t : Task)
    (htm : t ∈ editOtherTasks orig ts)
    (ht : t ∉ taskGroup orig.projectId orig.parentId
      (editOtherTasks orig ts)) :
    editLookup orig ts t = t ∧
      (editOldSiblings orig ts).find? (fun u => u.id == t.id) = none := by
  have hnone : (editOldSiblings orig ts).find?
      (fun u => u.id == t.id) = none := by
    rw [List.find?_eq_none]
    intro u hu hbad
    have huid : u.id = t.id := eq_of_beq hbad
    obtain ⟨u0, hu0, hshape⟩ := mem_renumberFrom_shape 0 _ u hu
    have hid2 : u.id = u0.id := by rw [hshape]
    have hu0g : u0 ∈ taskGroup orig.projectId orig.parentId
        (editOtherTasks orig ts) := (sortByOrder_perm _).mem_iff.mp hu0
    have hu0ts : u0 ∈ editOtherTasks orig ts := (mem_taskGroup.mp hu0g).1
    have hu0id : u0.id = t.id := by rw [← hid2, huid]
    have hteq : u0 = t :=
      eq_of_mem_of_id_eq (editOtherTasks_unique hids) hu0ts htm hu0id
    exact ht (hteq ▸ hu0g)
  constructor
  · unfold editLookup
    rw [hnone]
    rfl
  · exact hnone

lemma editLookup_fields (orig : Task) (ts : List Task)
    (hids : UniqueIds ts) (t : Task)
    (htm : t ∈ editOtherTasks orig ts) :
    (editLookup orig ts t).id = t.id ∧
    (editLookup orig ts t).projectId = t.projectId ∧
    (editLookup orig ts t).parentId = t.parentId := by
  by_cases hg : t ∈ taskGroup orig.projectId orig.parentId
      (editOtherTasks orig ts)
  · obtain ⟨k, hk, -⟩ := editLookup_group orig ts hids t hg
    rw [hk]
    exact ⟨rfl, rfl, rfl⟩
  · rw [(editLookup_nongroup orig ts hids t htm hg).1]
    exact ⟨rfl, rfl, rfl⟩

lemma taskGroup_editReplacedOthers (orig : Task) (ts : List Task)
    (hids : UniqueIds ts) (p : String) (q : Option String) :
    taskGroup p q (editReplacedOthers orig ts) =
      (taskGroup p q (editOtherTasks orig ts)).map (editLookup orig ts) := by
  unfold editReplacedOthers taskGroup
  rw [List.map_filter]
  congr 1
  apply List.filter_congr
  intro t htm
  obtain ⟨-, h1, h2⟩ := editLookup_fields orig ts hids t htm
  show decide ((editLookup orig ts t).projectId = p ∧
      (editLookup orig ts t).parentId = q) = _
  rw [h1, h2]

lemma taskGroup_singleton_moved (orig : Task) (d : TaskFormData)
    (newPid : String) (newPar : Option String) (ts : List Task)
    (p : String) (q : Option String) :
    taskGroup p q [editMovedTask orig d newPid newPar ts] =
      if newPid = p ∧ newPar = q then
        [editMovedTask orig d newPid newPar ts]
      else [] := by
  by_cases hk : newPid = p ∧ newPar = q
  · rw [if_pos hk]
    unfold taskGroup
    apply List.filter_eq_self.mpr
    intro t htm
    rw [List.mem_singleton] at htm
    subst htm
    rw [decide_eq_true_eq]
    exact hk
  · rw [if_neg hk]
    unfold taskGroup
    rw [List.filter_eq_nil_iff]
    intro t htm hbad
    rw [List.mem_singleton] at htm
    subst htm
    rw [decide_eq_true_eq] at hbad
    exact hk hbad

lemma taskGroup_editFinalTasks (orig : Task) (d : TaskFormData)
    (newPid : String) (newPar : Option String) (ts : List Task)
    (hids : UniqueIds ts) (p : String) (q : Option String) :
    taskGroup p q (editFinalTasks orig d newPid newPar ts) =
      (taskGroup p q (editOtherTasks orig ts)).map (editLookup orig ts) ++
        (if newPid = p ∧ newPar = q then
          [editMovedTask orig d newPid newPar ts]
        else []) := by
  unfold editFinalTasks
  rw [taskGroup_append, taskGroup_editReplacedOthers orig ts hids,
    taskGroup_singleton_moved]

lemma editLookup_id_on_nongroup_map (orig : Task) (ts : List Task)
    (hids : UniqueIds ts) (p : String) (q : Option String)
    (hko : ¬(orig.projectId = p ∧ orig.parentId = q)) :
    (taskGroup p q (editOtherTasks orig ts)).map (editLookup orig ts) =
      taskGroup p q (editOtherTasks orig ts) := by
  have hcongr : ∀ t ∈ taskGroup p q (editOtherTasks orig ts),
      editLookup orig ts t = t := by
    intro t htg
    obtain ⟨htm, h1, h2⟩ := mem_taskGroup.mp htg
    refine (editLookup_nongroup orig ts hids t htm ?_).1
    intro hbad
    obtain ⟨-, g1, g2⟩ := mem_taskGroup.mp hbad
    exact hko ⟨g1 ▸ h1, g2 ▸ h2⟩
  rw [List.map_congr_left hcongr, List.map_id']

lemma editFinalTasks_allDense (orig : Task) (d : TaskFormData)
    (newPid : String) (newPar : Option String) (ts : List Task)
    (hids : UniqueIds ts) (hmem : orig ∈ ts)
    (hmoved : ¬(orig.projectId = newPid ∧ orig.parentId = newPar))
    (hd : AllDense ts) :
    AllDense (editFinalTasks orig d newPid newPar ts) := by
  intro p q
  rw [taskGroup_editFinalTasks orig d newPid newPar ts hids]
  by_cases hko : orig.projectId = p ∧ orig.parentId = q
  · have hif : ¬(newPid = p ∧ newPar = q) := by
      rintro ⟨g1, g2⟩
      exact hmoved ⟨hko.1.trans g1.symm, hko.2.trans g2.symm⟩
    rw [if_neg hif, List.append_nil]
    have hperm : ((taskGroup p q (editOtherTasks orig ts)).map
        (editLookup orig ts)).Perm (editOldSiblings orig ts) := by
      have hgrp : taskGroup p q (editOtherTasks orig ts) =
          taskGroup orig.projectId orig.parentId (editOtherTasks orig ts) := by
        rw [hko.1, hko.2]
      rw [hgrp]
      exact map_find_getD_perm _ _
        ((editOldSiblings_ids_perm orig ts))
        (editOldSiblings_ids_nodup orig ts hids)
    refine denseGroup_of_perm hperm.symm ?_
    unfold editOldSiblings
    exact renumber_dense _
  · have hgrp := taskGroup_editOtherTasks orig ts hids hmem p q hko
    rw [editLookup_id_on_nongroup_map orig ts hids p q hko, hgrp]
    by_cases hkn : newPid = p ∧ newPar = q
    · rw [if_pos hkn]
      apply denseGroup_append_last _ _ (hd p q)
      show ((taskGroup newPid newPar (editOtherTasks orig ts)).length : Int) =
        ((taskGroup p q ts).length : Int)
      rw [hkn.1, hkn.2, taskGroup_editOtherTasks orig ts hids hmem p q hko]
    · rw [if_neg hkn, List.append_nil]
      exact hd p q

lemma denseGroup_map_preserving (g : Task → Task) (l : List Task)
    (h : ∀ t ∈ l, (g t).order = t.order) (hd : DenseGroup l) :
    DenseGroup (l.map g) := by
  unfold DenseGroup at *
  rw [List.length_map, List.map_map]
  have hcg : l.map (Task.order ∘ g) = l.map Task.order :=
    List.map_congr_left (fun t ht => h t ht)
  rw [hcg]
  exact hd

lemma allDense_map_preserving (g : Task → Task) (ts : List Task)
    (hfields : ∀ t ∈ ts, (g t).projectId = t.projectId ∧
      (g t).parentId = t.parentId ∧ (g t).order = t.order)
    (hd : AllDense ts) : AllDense (ts.map g) := by
  intro p q
  unfold taskGroup
  rw [List.map_filter]
  have hfc : ts.filter
      ((fun t => decide (t.projectId = p ∧ t.parentId = q)) ∘ g) =
      ts.filter (fun t => decide (t.projectId = p ∧ t.parentId = q)) := by
    apply List.filter_congr
    intro t ht
    obtain ⟨h1, h2, -⟩ := hfields t ht
    show decide ((g t).projectId = p ∧ (g t).parentId = q) = _
    rw [h1, h2]
  rw [hfc]
  exact denseGroup_map_preserving g _
    (fun t ht => (hfields t (List.mem_filter.mp ht).1).2.2) (hd p q)

lemma handleCreateTask_allDense (nowMs : Nat) (nowIso : String)
    (d : TaskFormData) (pid : String) (par : Option String) (s : AppState)
    (hd : AllDense s.tasks) :
    AllDense (handleCreateTask nowMs nowIso d pid par s).tasks := by
  intro p q
  show DenseGroup (taskGroup p q
    (s.tasks ++ [createdTask nowMs nowIso d pid par s]))
  rw [taskGroup_append]
  by_cases hk : pid = p ∧ par = q
  · obtain ⟨rfl, rfl⟩ := hk
    have hsingle : taskGroup pid par [createdTask nowMs nowIso d pid par s] =
        [createdTask nowMs nowIso d pid par s] := by
      unfold taskGroup
      apply List.filter_eq_self.mpr
      intro t htm
      rw [List.mem_singleton] at htm
      subst htm
      rw [decide_eq_true_eq]
      exact ⟨rfl, rfl⟩
    rw [hsingle]
    apply denseGroup_append_last _ _ (hd pid par)
    show (taskGroup pid par s.tasks).foldl
        (fun mx t => max t.order mx) (-1) + 1 =
      ((taskGroup pid par s.tasks).length : Int)
    rw [foldl_max_of_dense _ (hd pid par)]
    omega
  · have hempty : taskGroup p q [createdTask nowMs nowIso d pid par s] =
        [] := by
      unfold taskGroup
      rw [List.filter_eq_nil_iff]
      intro t htm hbad
      rw [List.mem_singleton] at htm
      subst htm
      rw [decide_eq_true_eq] at hbad
      exact hk ⟨hbad.1, hbad.2⟩
    rw [hempty, List.append_nil]
    exact hd p q

lemma handleEditTask_allDense (nowMs : Nat) (nowIso : String) (orig : Task)
    (d : TaskFormData) (newPid : String) (newPar : Option String)
    (s : AppState) (hids : UniqueIds s.tasks) (hmem : orig ∈ s.tasks)
    (hd : AllDense s.tasks) :
    AllDense (handleEditTask nowMs nowIso orig d newPid newPar s).tasks := by
  unfold handleEditTask
  by_cases hmv : orig.projectId ≠ newPid ∨ orig.parentId ≠ newPar
  · rw [if_pos hmv]
    refine editFinalTasks_allDense orig d newPid newPar s.tasks hids hmem
      ?_ hd
    rintro ⟨g1, g2⟩
    rcases hmv with h | h
    · exact h g1
    · exact h g2
  · rw [if_neg hmv]
    refine allDense_map_preserving _ s.tasks ?_ hd
    intro t ht
    by_cases hi : t.id = orig.id
    · have hto : t = orig := eq_of_mem_of_id_eq hids ht hmem hi
      rw [if_pos hi, hto]
      exact ⟨rfl, rfl, rfl⟩
    · rw [if_neg hi]
      exact ⟨rfl, rfl, rfl⟩

lemma handleReorder_dense (dId tId : String) (l : List Task)
    (pos : DropPosition) (hd : DenseGroup l) :
    DenseGroup (handleReorder dId tId l pos) := by
  unfold handleReorder
  rcases hfind : l.find? (fun p => p.id == dId) with _ | dragged
  · simp only [hfind]
    exact hd
  · simp only [hfind]
    rcases hidx : (sortByOrder (l.filter (fun p => !(p.id == dId)))).findIdx?
        (fun p => p.id == tId) with _ | idx
    · simp only [hidx]
      exact hd
    · simp only [hidx]
      exact renumber_dense _

lemma findIdx?_bounds {α : Type} {p : α → Bool} :
    ∀ (l : List α) (s i : Nat), List.findIdx? p l s = some i →
      s ≤ i ∧ i < s + l.length := by
  intro l
  induction l with
  | nil => intro s i h; cases h
  | cons a l ih =>
      intro s i h
      rw [List.findIdx?_cons] at h
      by_cases hp : p a = true
      · rw [if_pos hp] at h
        cases h
        refine ⟨le_refl _, ?_⟩
        simp only [List.length_cons]
        omega
      · rw [if_neg hp] at h
        obtain ⟨h1, h2⟩ := ih (s + 1) i h
        refine ⟨by omega, ?_⟩
        simp only [List.length_cons]
        omega

lemma findIdx?_lt_length {α : Type} {p : α → Bool} {l : List α} {i : Nat}
    (h : l.findIdx? p = some i) : i < l.length := by
  have := findIdx?_bounds l 0 i h
  omega

lemma mem_handleReorder_key (dId tId : String) (l : List Task)
    (pos : DropPosition) (t' : Task)
    (ht' : t' ∈ handleReorder dId tId l pos) :
    ∃ t ∈ l, t'.projectId = t.projectId ∧ t'.parentId = t.parentId := by
  unfold handleReorder at ht'
  rcases hfind : l.find? (fun p => p.id == dId) with _ | dragged
  · simp only [hfind] at ht'
    exact ⟨t', ht', rfl, rfl⟩
  · simp only [hfind] at ht'
    rcases hidx : (sortByOrder (l.filter (fun p => !(p.id == dId)))).findIdx?
        (fun p => p.id == tId) with _ | idx
    · simp only [hidx] at ht'
      exact ⟨t', ht', rfl, rfl⟩
    · simp only [hidx] at ht'
      obtain ⟨t0, ht0, hshape⟩ := mem_renumberFrom_shape 0 _ t' ht'
      have hkey : t'.projectId = t0.projectId ∧
          t'.parentId = t0.parentId := by
        rw [hshape]
        exact ⟨rfl, rfl⟩
      have hidxlt := findIdx?_lt_length hidx
      have hlen : (if pos = DropPosition.bottom then idx + 1 else idx) ≤
          (sortByOrder (l.filter (fun p => !(p.id == dId)))).length := by
        by_cases hb : pos = DropPosition.bottom
        · rw [if_pos hb]
          omega
        · rw [if_neg hb]
          omega
      rcases (List.mem_insertIdx hlen).mp ht0 with rfl | ht0
      · exact ⟨t0, List.mem_of_find?_eq_some hfind, hkey.1, hkey.2⟩
      · have ht0l : t0 ∈ l :=
          (List.mem_filter.mp ((sortByOrder_perm _).mem_iff.mp ht0)).1
        exact ⟨t0, ht0l, hkey.1, hkey.2⟩

lemma reorderTaskGroup_allDense (pid : String) (par : Option String)
    (dId tId : String) (pos : DropPosition) (s : AppState)
    (hd : AllDense s.tasks) :
    AllDense (reorderTaskGroup pid par dId tId pos s).tasks := by
  intro p q
  show DenseGroup (taskGroup p q
    (s.tasks.filter (fun t => !(decide (t.projectId = pid ∧ t.parentId = par))) ++
      handleReorder dId tId (taskGroup pid par s.tasks) pos))
  rw [taskGroup_append]
  have hkeys : ∀ t' ∈ handleReorder dId tId (taskGroup pid par s.tasks) pos,
      t'.projectId = pid ∧ t'.parentId = par := by
    intro t' ht'
    obtain ⟨t, htm, h1, h2⟩ := mem_handleReorder_key dId tId _ pos t' ht'
    obtain ⟨-, k1, k2⟩ := mem_taskGroup.mp htm
    exact ⟨h1.trans k1, h2.trans k2⟩
  by_cases hk : pid = p ∧ par = q
  · obtain ⟨rfl, rfl⟩ := hk
    have hleft : taskGroup pid par (s.tasks.filter
        (fun t => !(decide (t.projectId = pid ∧ t.parentId = par)))) = [] := by
      rw [taskGroup_filter_comm]
      rw [List.filter_eq_nil_iff]
      intro t htg hbad
      obtain ⟨-, h1, h2⟩ := mem_taskGroup.mp htg
      rw [Bool.not_eq_true', decide_eq_false_iff_not] at hbad
      exact hbad ⟨h1, h2⟩
    have hright : taskGroup pid par
        (handleReorder dId tId (taskGroup pid par s.tasks) pos) =
        handleReorder dId tId (taskGroup pid par s.tasks) pos := by
      unfold taskGroup
      apply List.filter_eq_self.mpr
      intro t' ht'
      rw [decide_eq_true_eq]
      exact hkeys t' ht'
    rw [hleft, hright, List.nil_append]
    exact handleReorder_dense dId tId _ pos (hd pid par)
  · have hright : taskGroup p q
        (handleReorder dId tId (taskGroup pid par s.tasks) pos) = [] := by
      unfold taskGroup
      rw [List.filter_eq_nil_iff]
      intro t' ht' hbad
      rw [decide_eq_true_eq] at hbad
      obtain ⟨g1, g2⟩ := hkeys t' ht'
      exact hk ⟨g1.symm.trans hbad.1, g2.symm.trans hbad.2⟩
    have hleft : taskGroup p q (s.tasks.filter
        (fun t => !(decide (t.projectId = pid ∧ t.parentId = par)))) =
        taskGroup p q s.tasks := by
      rw [taskGroup_filter_comm]
      apply List.filter_eq_self.mpr
      intro t htg
      obtain ⟨-, h1, h2⟩ := mem_taskGroup.mp htg
      rw [Bool.not_eq_true', decide_eq_false_iff_not]
      rintro ⟨g1, g2⟩
      exact hk ⟨g1.symm.trans h1, g2.symm.trans h2⟩
    rw [hleft, hright, List.append_nil]
    exact hd p q

/-- Form data used by the C1 witness. -/
def demoFormData : TaskFormData :=
  { title := "D", description := "", status := .toDo, priority := .medium,
    startDate := none, dueDate := none, tags := [] }

/-- **C1 (counterexample).** Starting from a state in which every sibling
group is dense, deleting a task that does not hold the highest order in
its sibling group leaves a gap: delete does not renumber the deleted
task's siblings, so the claimed invariant fails for delete. -/
theorem order_density_c1_counterexample :
    AllDense deleteDemoState.tasks ∧
    ¬ AllDense (handleDeleteTask 7 "now" "t1" deleteDemoState).tasks := by
  constructor
  · rw [allDense_iff_mem]
    decide
  · intro hAD
    exact absurd (hAD "p1" none) (by decide)

/-- **C1 (amended).** Create, edit (both the in-place and the move path)
and sibling-group reorder preserve dense zero-based `order` values in
every `(projectId, parentId)` sibling group (given the data-model
invariant that task ids are unique and, for edit, that the edited
snapshot is a task of the state); delete is excluded — it can leave a gap
in the deleted task's sibling group (see the counterexample). -/
theorem order_density_c1_amended :
    (∀ (nowMs : Nat) (nowIso : String) (d : TaskFormData) (pid : String)
        (par : Option String) (s : AppState), AllDense s.tasks →
        AllDense (handleCreateTask nowMs nowIso d pid par s).tasks) ∧
    (∀ (nowMs : Nat) (nowIso : String) (orig : Task) (d : TaskFormData)
        (newPid : String) (newPar : Option String) (s : AppState),
        UniqueIds s.tasks → orig ∈ s.tasks → AllDense s.tasks →
        AllDense (handleEditTask nowMs nowIso orig d newPid newPar s).tasks) ∧
    (∀ (pid : String) (par : Option String) (dId tId : String)
        (pos : DropPosition) (s : AppState), AllDense s.tasks →
        AllDense (reorderTaskGroup pid par dId tId pos s).tasks) :=
  ⟨fun nowMs nowIso d pid par s hd =>
      handleCreateTask_allDense nowMs nowIso d pid par s hd,
    fun nowMs nowIso orig d newPid newPar s hids hmem hd =>
      handleEditTask_allDense nowMs nowIso orig d newPid newPar s hids hmem hd,
    fun pid par dId tId pos s hd =>
      reorderTaskGroup_allDense pid par dId tId pos s hd⟩

/-- Witness for the amended C1: density is preserved on a concrete state
by a create, an edit-move, and a reorder. -/
theorem order_density_c1_amended_witness :
    AllDense (handleCreateTask 5 "now" demoFormData "p1" none
      deleteDemoState).tasks ∧
    AllDense (handleEditTask 5 "now" deleteDemoOther demoFormData "p2" none
      deleteDemoState).tasks ∧
    AllDense (reorderTaskGroup "p1" none "t1" "t3" DropPosition.top
      deleteDemoState).tasks :=
  ⟨order_density_c1_amended.1 5 "now" demoFormData "p1" none deleteDemoState
      (by rw [allDense_iff_mem]; decide),
    order_density_c1_amended.2.1 5 "now" deleteDemoOther demoFormData "p2"
      none deleteDemoState (by decide) (by decide)
      (by rw [allDense_iff_mem]; decide),
    order_density_c1_amended.2.2 "p1" none "t1" "t3" DropPosition.top
      deleteDemoState (by rw [allDense_iff_mem]; decide)⟩


/-! ## C6: the edit-move path in detail (stable compaction, placement,
logging) -/

/-- `ordOf ts i`: the `order` of the task with id `i` in `ts` (the first
match, as the code's lookups behave). -/
def ordOf (ts : List Task) (i : String) : Option Int :=
  (ts.find? (fun t => t.id == i)).map Task.order

lemma sorted_nodup_pairwise_lt (L : List Task)
    (hs : List.Sorted (fun a b : Task => a.order ≤ b.order) L)
    (hnd : (L.map Task.order).Nodup) :
    List.Pairwise (fun a b : Task => a.order < b.order) L := by
  have h2 : List.Pairwise (fun a b : Task => a.order ≠ b.order) L :=
    List.pairwise_map.mp hnd
  exact (hs.and h2).imp (fun h => lt_of_le_of_ne h.1 h.2)

lemma renumberFrom_stability (L : List Task) :
    ∀ n : Nat,
      List.Pairwise (fun a b : Task => a.order < b.order) L →
      (L.map Task.id).Nodup →
      ∀ u v : Task, u ∈ renumberFrom n L → v ∈ renumberFrom n L →
      ∀ u0 v0 : Task, u0 ∈ L → v0 ∈ L → u.id = u0.id → v.id = v0.id →
      (u.order < v.order ↔ u0.order < v0.order) := by
  induction L with
  | nil =>
      intro n _ _ u v hu
      simp only [renumberFrom] at hu
      exact absurd hu (List.not_mem_nil u)
  | cons t L ih =>
      intro n hpw hnd u v hu hv u0 v0 hu0 hv0 hiu hiv
      rw [List.map_cons, List.nodup_cons] at hnd
      rw [List.pairwise_cons] at hpw
      simp only [renumberFrom] at hu hv
      have hidsub : ∀ w : Task, w ∈ renumberFrom (n + 1) L →
          w.id ∈ L.map Task.id := by
        intro w hw
        rw [← renumberFrom_map_id (n + 1) L]
        exact List.mem_map_of_mem Task.id hw
      have hpin : ∀ w0 : Task, w0 ∈ t :: L → w0.id = t.id → w0 = t := by
        intro w0 hw0 hwid
        rcases List.mem_cons.mp hw0 with rfl | hw0m
        · rfl
        · exact absurd (hwid ▸ List.mem_map_of_mem Task.id hw0m) hnd.1
      have hpin2 : ∀ w : Task, w ∈ renumberFrom (n + 1) L →
          ∀ w0 ∈ t :: L, w.id = w0.id → w0 ∈ L := by
        intro w hw w0 hw0 hwid
        rcases List.mem_cons.mp hw0 with rfl | hw0m
        · exact absurd (hwid ▸ hidsub w hw) hnd.1
        · exact hw0m
      rcases List.mem_cons.mp hu with rfl | huT
      · rcases List.mem_cons.mp hv with rfl | hvT
        · have hu0t : u0 = t := hpin u0 hu0 hiu.symm
          have hv0t : v0 = t := hpin v0 hv0 hiv.symm
          rw [hu0t, hv0t]
          constructor
          · intro h
            exact absurd h (lt_irrefl _)
          · intro h
            exact absurd h (lt_irrefl _)
        · have hu0t : u0 = t := hpin u0 hu0 hiu.symm
          have hv0L : v0 ∈ L := hpin2 v hvT v0 hv0 hiv
          have hvord := (mem_renumberFrom_order (n + 1) L v hvT).1
          refine iff_of_true ?_ ?_
          · show (n : Int) < v.order
            push_cast at hvord
            omega
          · rw [hu0t]
            exact hpw.1 v0 hv0L
      · rcases List.mem_cons.mp hv with rfl | hvT
        · have hv0t : v0 = t := hpin v0 hv0 hiv.symm
          have hu0L : u0 ∈ L := hpin2 u huT u0 hu0 hiu
          have huord := (mem_renumberFrom_order (n + 1) L u huT).1
          refine iff_of_false ?_ ?_
          · show ¬(u.order < (n : Int))
            push_cast at huord
            omega
          · rw [hv0t]
            intro hlt
            have hgt := hpw.1 u0 hu0L
            omega
        · have hu0L : u0 ∈ L := hpin2 u huT u0 hu0 hiu
          have hv0L : v0 ∈ L := hpin2 v hvT v0 hv0 hiv
          exact ih (n + 1) hpw.2 hnd.2 u v huT hvT u0 v0 hu0L hv0L hiu hiv

lemma editSorted_pairwise (orig : Task) (ts : List Task)
    (hd : AllDense ts) :
    List.Pairwise (fun a b : Task => a.order < b.order)
      (sortByOrder (taskGroup orig.projectId orig.parentId
        (editOtherTasks orig ts))) := by
  refine sorted_nodup_pairwise_lt _ (sortByOrder_sorted _) ?_
  have hsub : (taskGroup orig.projectId orig.parentId
      (editOtherTasks orig ts)).Sublist
        (taskGroup orig.projectId orig.parentId ts) := by
    unfold editOtherTasks
    rw [taskGroup_filter_comm]
    exact List.filter_sublist _
  have h1 : ((taskGroup orig.projectId orig.parentId
      (editOtherTasks orig ts)).map Task.order).Nodup :=
    List.Nodup.sublist (hsub.map Task.order)
      (denseGroup_nodup_orders (hd orig.projectId orig.parentId))
  exact (((sortByOrder_perm _).map Task.order).nodup_iff).mpr h1

lemma handleEditTask_moved_tasks (nowMs : Nat) (nowIso : String)
    (orig : Task) (d : TaskFormData) (newPid : String)
    (newPar : Option String) (s : AppState)
    (hmoved : ¬(orig.projectId = newPid ∧ orig.parentId = newPar)) :
    (handleEditTask nowMs nowIso orig d newPid newPar s).tasks =
      editFinalTasks orig d newPid newPar s.tasks := by
  unfold handleEditTask
  rw [if_pos (not_and_or.mp hmoved)]

lemma handleEditTask_moved_log (nowMs : Nat) (nowIso : String)
    (orig : Task) (d : TaskFormData) (newPid : String)
    (newPar : Option String) (s : AppState)
    (hmoved : ¬(orig.projectId = newPid ∧ orig.parentId = newPar)) :
    (handleEditTask nowMs nowIso orig d newPid newPar s).activityLog =
      appendLog
        (if orig.projectId ≠ newPid then
          appendLog s.activityLog newPid
            (createActivityLogEntry nowMs nowIso
              ("moved task \"" ++ d.title ++ "\" into this project."))
        else s.activityLog)
        orig.projectId
        (createActivityLogEntry nowMs nowIso
          ("edited task \"" ++ d.title ++ "\".")) := by
  unfold handleEditTask
  rw [if_pos (not_and_or.mp hmoved)]

lemma editFinalTasks_find_moved (orig : Task) (d : TaskFormData)
    (newPid : String) (newPar : Option String) (ts : List Task)
    (hids : UniqueIds ts) :
    (editFinalTasks orig d newPid newPar ts).find?
        (fun t => t.id == orig.id) =
      some (editMovedTask orig d newPid newPar ts) := by
  unfold editFinalTasks
  rw [List.find?_append]
  have hnone : (editReplacedOthers orig ts).find?
      (fun t => t.id == orig.id) = none := by
    rw [List.find?_eq_none]
    intro u hu hbad
    unfold editReplacedOthers at hu
    obtain ⟨t, htm, rfl⟩ := List.mem_map.mp hu
    have hfid := (editLookup_fields orig ts hids t htm).1
    have htne := (mem_editOtherTasks.mp htm).2
    exact htne (by rw [← hfid]; exact eq_of_beq hbad)
  rw [hnone, find?_cons_pos (fun t => t.id == orig.id)
    (editMovedTask orig d newPid newPar ts) [] (beq_self_eq_true orig.id)]
  rfl

/-- **C6.** For an edit whose new `(projectId, parentId)` differs from
the original pair (with unique task ids, the edited snapshot a task of
the state, and every sibling group dense): the old sibling group of the
new state is dense again and the surviving old siblings keep their
relative order (stable compaction); the moved task is found in the new
state, carries the new keys, and its `order` equals the new sibling
group's size before insertion (placed last), that group being dense
again; an "edited task" entry is appended on the original project's log;
and if `projectId` changed, a "moved task into this project" entry is
appended on the destination project's log. -/
theorem edit_move_c6 (nowMs : Nat) (nowIso : String) (orig : Task)
    (d : TaskFormData) (newPid : String) (newPar : Option String)
    (s : AppState) (hids : UniqueIds s.tasks) (hmem : orig ∈ s.tasks)
    (hmoved : ¬(orig.projectId = newPid ∧ orig.parentId = newPar))
    (hd : AllDense s.tasks) :
    DenseGroup (taskGroup orig.projectId orig.parentId
      (handleEditTask nowMs nowIso orig d newPid newPar s).tasks) ∧
    (∀ (i j : String) (oi oj ni nj : Int),
      ordOf (taskGroup orig.projectId orig.parentId
        (handleEditTask nowMs nowIso orig d newPid newPar s).tasks) i =
          some ni →
      ordOf (taskGroup orig.projectId orig.parentId
        (handleEditTask nowMs nowIso orig d newPid newPar s).tasks) j =
          some nj →
      ordOf s.tasks i = some oi →
      ordOf s.tasks j = some oj →
      (ni < nj ↔ oi < oj)) ∧
    ((handleEditTask nowMs nowIso orig d newPid newPar s).tasks.find?
        (fun t => t.id == orig.id) =
      some (editMovedTask orig d newPid newPar s.tasks)) ∧
    ((editMovedTask orig d newPid newPar s.tasks).projectId = newPid ∧
      (editMovedTask orig d newPid newPar s.tasks).parentId = newPar ∧
      (editMovedTask orig d newPid newPar s.tasks).order =
        ((taskGroup newPid newPar s.tasks).length : Int)) ∧
    DenseGroup (taskGroup newPid newPar
      (handleEditTask nowMs nowIso orig d newPid newPar s).tasks) ∧
    (recGet (handleEditTask nowMs nowIso orig d newPid newPar s).activityLog
        orig.projectId =
      some ((recGet s.activityLog orig.projectId).getD [] ++
        [createActivityLogEntry nowMs nowIso
          ("edited task \"" ++ d.title ++ "\".")])) ∧
    (orig.projectId ≠ newPid →
      recGet
          (handleEditTask nowMs nowIso orig d newPid newPar s).activityLog
          newPid =
        some ((recGet s.activityLog newPid).getD [] ++
          [createActivityLogEntry nowMs nowIso
            ("moved task \"" ++ d.title ++ "\" into this project.")])) := by
  rw [handleEditTask_moved_tasks nowMs nowIso orig d newPid newPar s hmoved,
    handleEditTask_moved_log nowMs nowIso orig d newPid newPar s hmoved]
  have hif : ¬(newPid = orig.projectId ∧ newPar = orig.parentId) := by
    rintro ⟨g1, g2⟩
    exact hmoved ⟨g1.symm, g2.symm⟩
  have hAD : AllDense (editFinalTasks orig d newPid newPar s.tasks) :=
    editFinalTasks_allDense orig d newPid newPar s.tasks hids hmem hmoved hd
  have hG : taskGroup orig.projectId orig.parentId
      (editFinalTasks orig d newPid newPar s.tasks) =
      (taskGroup orig.projectId orig.parentId
        (editOtherTasks orig s.tasks)).map (editLookup orig s.tasks) := by
    rw [taskGroup_editFinalTasks orig d newPid newPar s.tasks hids,
      if_neg hif, List.append_nil]
  refine ⟨hAD orig.projectId orig.parentId, ?_, ?_, ?_, ?_, ?_, ?_⟩
  · intro i j oi oj ni nj hni hnj hoi hoj
    rw [hG] at hni hnj
    unfold ordOf at hni hnj hoi hoj
    obtain ⟨ui, hui, huio⟩ := Option.map_eq_some'.mp hni
    obtain ⟨uj, huj, hujo⟩ := Option.map_eq_some'.mp hnj
    obtain ⟨t0i, ht0i, ht0io⟩ := Option.map_eq_some'.mp hoi
    obtain ⟨t0j, ht0j, ht0jo⟩ := Option.map_eq_some'.mp hoj
    have huim : ui ∈ (taskGroup orig.projectId orig.parentId
        (editOtherTasks orig s.tasks)).map (editLookup orig s.tasks) :=
      List.mem_of_find?_eq_some hui
    have hujm : uj ∈ (taskGroup orig.projectId orig.parentId
        (editOtherTasks orig s.tasks)).map (editLookup orig s.tasks) :=
      List.mem_of_find?_eq_some huj
    have huiid : (ui.id == i) = true :=
      @List.find?_some Task (fun t => t.id == i) ui _ hui
    have hujid : (uj.id == j) = true :=
      @List.find?_some Task (fun t => t.id == j) uj _ huj
    have hperm : ((taskGroup orig.projectId orig.parentId
        (editOtherTasks orig s.tasks)).map (editLookup orig s.tasks)).Perm
          (editOldSiblings orig s.tasks) :=
      map_find_getD_perm _ _ (editOldSiblings_ids_perm orig s.tasks)
        (editOldSiblings_ids_nodup orig s.tasks hids)
    have huiS : ui ∈ editOldSiblings orig s.tasks := hperm.mem_iff.mp huim
    have hujS : uj ∈ editOldSiblings orig s.tasks := hperm.mem_iff.mp hujm
    have hSLnd : ((sortByOrder (taskGroup orig.projectId orig.parentId
        (editOtherTasks orig s.tasks))).map Task.id).Nodup := by
      rw [← editOldSiblings_map_id]
      exact editOldSiblings_ids_nodup orig s.tasks hids
    have hidini : ui.id ∈ (sortByOrder (taskGroup orig.projectId
        orig.parentId (editOtherTasks orig s.tasks))).map Task.id := by
      rw [← editOldSiblings_map_id]
      exact List.mem_map_of_mem Task.id huiS
    have hidinj : uj.id ∈ (sortByOrder (taskGroup orig.projectId
        orig.parentId (editOtherTasks orig s.tasks))).map Task.id := by
      rw [← editOldSiblings_map_id]
      exact List.mem_map_of_mem Task.id hujS
    obtain ⟨u0, hu0SL, hu0id⟩ := List.mem_map.mp hidini
    obtain ⟨v0, hv0SL, hv0id⟩ := List.mem_map.mp hidinj
    have hu0ts : u0 ∈ s.tasks :=
      (mem_editOtherTasks.mp
        (mem_taskGroup.mp ((sortByOrder_perm _).mem_iff.mp hu0SL)).1).1
    have hv0ts : v0 ∈ s.tasks :=
      (mem_editOtherTasks.mp
        (mem_taskGroup.mp ((sortByOrder_perm _).mem_iff.mp hv0SL)).1).1
    have ht0im : t0i ∈ s.tasks := List.mem_of_find?_eq_some ht0i
    have ht0jm : t0j ∈ s.tasks := List.mem_of_find?_eq_some ht0j
    have ht0iid : (t0i.id == i) = true :=
      @List.find?_some Task (fun t => t.id == i) t0i _ ht0i
    have ht0jid : (t0j.id == j) = true :=
      @List.find?_some Task (fun t => t.id == j) t0j _ ht0j
    have hu0eq : u0 = t0i := by
      apply eq_of_mem_of_id_eq hids hu0ts ht0im
      rw [hu0id, eq_of_beq huiid]
      exact (eq_of_beq ht0iid).symm
    have hv0eq : v0 = t0j := by
      apply eq_of_mem_of_id_eq hids hv0ts ht0jm
      rw [hv0id, eq_of_beq hujid]
      exact (eq_of_beq ht0jid).symm
    have hstab := renumberFrom_stability (sortByOrder (taskGroup
        orig.projectId orig.parentId (editOtherTasks orig s.tasks))) 0
      (editSorted_pairwise orig s.tasks hd) hSLnd ui uj huiS hujS
      u0 v0 hu0SL hv0SL hu0id.symm hv0id.symm
    rw [← huio, ← hujo, ← ht0io, ← ht0jo, ← hu0eq, ← hv0eq]
    exact hstab
  · exact editFinalTasks_find_moved orig d newPid newPar s.tasks hids
  · refine ⟨rfl, rfl, ?_⟩
    show ((taskGroup newPid newPar (editOtherTasks orig s.tasks)).length
        : Int) = ((taskGroup newPid newPar s.tasks).length : Int)
    rw [taskGroup_editOtherTasks orig s.tasks hids hmem newPid newPar hmoved]
  · exact hAD newPid newPar
  · rw [recGet_appendLog_self]
    by_cases hpc : orig.projectId ≠ newPid
    · rw [if_pos hpc, recGet_appendLog_ne s.activityLog newPid _
        orig.projectId hpc]
    · rw [if_neg hpc]
  · intro hpc
    rw [recGet_appendLog_ne _ orig.projectId _ newPid (Ne.symm hpc),
      if_pos hpc, recGet_appendLog_self]

/-- Witness for C6 at a concrete input: moving task `t3` from project
`p1` (no parent) to project `p2` (no parent). -/
theorem edit_move_c6_witness :
    DenseGroup (taskGroup deleteDemoOther.projectId
      deleteDemoOther.parentId
      (handleEditTask 11 "iso" deleteDemoOther demoFormData "p2" none
        deleteDemoState).tasks) ∧
    (∀ (i j : String) (oi oj ni nj : Int),
      ordOf (taskGroup deleteDemoOther.projectId deleteDemoOther.parentId
        (handleEditTask 11 "iso" deleteDemoOther demoFormData "p2" none
          deleteDemoState).tasks) i = some ni →
      ordOf (taskGroup deleteDemoOther.projectId deleteDemoOther.parentId
        (handleEditTask 11 "iso" deleteDemoOther demoFormData "p2" none
          deleteDemoState).tasks) j = some nj →
      ordOf deleteDemoState.tasks i = some oi →
      ordOf deleteDemoState.tasks j = some oj →
      (ni < nj ↔ oi < oj)) ∧
    ((handleEditTask 11 "iso" deleteDemoOther demoFormData "p2" none
        deleteDemoState).tasks.find?
          (fun t => t.id == deleteDemoOther.id) =
      some (editMovedTask deleteDemoOther demoFormData "p2" none
        deleteDemoState.tasks)) ∧
    ((editMovedTask deleteDemoOther demoFormData "p2" none
        deleteDemoState.tasks).projectId = "p2" ∧
      (editMovedTask deleteDemoOther demoFormData "p2" none
        deleteDemoState.tasks).parentId = none ∧
      (editMovedTask deleteDemoOther demoFormData "p2" none
        deleteDemoState.tasks).order =
        ((taskGroup "p2" none deleteDemoState.tasks).length : Int)) ∧
    DenseGroup (taskGroup "p2" none
      (handleEditTask 11 "iso" deleteDemoOther demoFormData "p2" none
        deleteDemoState).tasks) ∧
    (recGet (handleEditTask 11 "iso" deleteDemoOther demoFormData "p2"
        none deleteDemoState).activityLog deleteDemoOther.projectId =
      some ((recGet deleteDemoState.activityLog
          deleteDemoOther.projectId).getD [] ++
        [createActivityLogEntry 11 "iso"
          ("edited task \"" ++ demoFormData.title ++ "\".")])) ∧
    (deleteDemoOther.projectId ≠ "p2" →
      recGet (handleEditTask 11 "iso" deleteDemoOther demoFormData "p2"
          none deleteDemoState).activityLog "p2" =
        some ((recGet deleteDemoState.activityLog "p2").getD [] ++
          [createActivityLogEntry 11 "iso"
            ("moved task \"" ++ demoFormData.title ++
              "\" into this project.")])) :=
  edit_move_c6 11 "iso" deleteDemoOther demoFormData "p2" none
    deleteDemoState (by decide) (by decide) (by decide)
    (by rw [allDense_iff_mem]; decide)

end TaskManager
